import Mathlib

/-!
Verification of the Norsk Lovtidend scraper core (src/lovtidend).

This file gives a shallow embedding of the pure decision logic of the
scraper: URL/offset handling, pagination reconciliation, retry delays,
checkpoint persistence, the download loop with HTML fallback, the output
path computation, and the per-page document loop of the orchestrator.

External effects (HTTP, BeautifulSoup parsing, the file system, random
jitter, the clock) are modelled as explicit oracles/parameters or as
event traces, so every definition is executable and the theorems speak
about the same control flow as the Python source.
-/

set_option maxHeartbeats 1600000

namespace Lovtidend

/-! ## URL model

Python code works on URL strings through `urllib.parse.urlparse` /
`parse_qs`.  We model a URL in its parsed form: `query` is the insertion
ordered association list that `parse_qs` produces (each key maps to a
non-empty list of values in the real output; we allow any list). -/

structure UrlModel where
  scheme : String
  netloc : String
  path : String
  query : List (String × List String)
  fragment : String
deriving DecidableEq, Repr

/-- Lookup in the `parse_qs` dict: first binding of the key. -/
def qsGet (q : List (String × List String)) (k : String) : Option (List String) :=
  (q.find? (fun kv => kv.1 = k)).map (fun kv => kv.2)

/-- Decimal digit run accumulator for `parseIntStr`. -/
def parseNatDigits : List Char → Nat → Option Nat
  | [], acc => some acc
  | c :: rest, acc =>
    if 48 ≤ c.toNat ∧ c.toNat ≤ 57 then
      parseNatDigits rest (acc * 10 + (c.toNat - 48))
    else
      none

/-- Python `int(s)` on a plain decimal string: optional sign followed by
at least one digit; anything else raises (`none` here). -/
def parseIntStr (s : String) : Option Int :=
  match s.toList with
  | [] => none
  | '-' :: rest =>
    if rest = [] then none else (parseNatDigits rest 0).map (fun n => -(n : Int))
  | '+' :: rest =>
    if rest = [] then none else (parseNatDigits rest 0).map (fun n => (n : Int))
  | cs => (parseNatDigits cs 0).map (fun n => (n : Int))

/-- `checkpoint.extract_offset`: read the `offset` query parameter and
parse it as an integer, `none` when absent or unparseable. -/
def extract_offset (u : UrlModel) : Option Int :=
  match qsGet u.query "offset" with
  | some (v :: _) => parseIntStr v
  | _ => none

/-- `LovtidendScraper._normalize_listing_url` on a present URL: drop the
fragment. -/
def normalize_listing_url (u : UrlModel) : UrlModel :=
  { u with fragment := "" }

/-- `dict.update` on `parse_qs` dicts: existing keys keep their position
and receive the new value, new keys are appended in order. -/
def qsUpdate (cur tgt : List (String × List String)) : List (String × List String) :=
  cur.map (fun kv =>
    match qsGet tgt kv.1 with
    | some vs => (kv.1, vs)
    | none => kv) ++
  tgt.filter (fun kv => (qsGet cur kv.1).isNone)

/-- `LovtidendScraper._merge_listing_query`: merge the current page filters
into a pagination target, clearing the fragment and inheriting
scheme/netloc/path from the current URL when the target lacks them. -/
def merge_listing_query (current target : UrlModel) : UrlModel :=
  let mergedQuery := qsUpdate current.query target.query
  let combined := { target with query := mergedQuery, fragment := "" }
  let combined := if combined.scheme = "" then { combined with scheme := current.scheme } else combined
  let combined := if combined.netloc = "" then { combined with netloc := current.netloc } else combined
  if combined.path = "" then { combined with path := current.path } else combined

/-- `LovtidendScraper._build_offset_url`: force the `offset` query
parameter to `max offset 0` and drop the fragment. -/
def build_offset_url (u : UrlModel) (offset : Int) : UrlModel :=
  let newVal := toString (max offset 0)
  let query :=
    if (qsGet u.query "offset").isSome then
      u.query.map (fun kv => if kv.1 = "offset" then (kv.1, [newVal]) else kv)
    else
      u.query ++ [("offset", [newVal])]
  { u with query := query, fragment := "" }

/-- Acceptance test of `_select_next_url` for one candidate: a candidate
with no numeric offset is always taken; otherwise it must advance past
the current page offset (or the current page must have none). -/
def selectAccept (currentOffset : Option Int) (candidate : UrlModel) : Bool :=
  match extract_offset candidate with
  | none => true
  | some co =>
    match currentOffset with
    | none => true
    | some po => decide (po < co)

/-- Candidate list of `_select_next_url`: summary first, then the anchor
when it is not a duplicate of the summary. -/
def selectCandidates (summaryNext anchorNext : Option UrlModel) : List UrlModel :=
  let cands := match summaryNext with
    | some s => [s]
    | none => []
  match anchorNext with
  | some a => if a ∈ cands then cands else cands ++ [a]
  | none => cands

/-- `LovtidendScraper._select_next_url`: first acceptable candidate, in
summary-before-anchor order. -/
def select_next_url (pageUrl : UrlModel) (summaryNext anchorNext : Option UrlModel) :
    Option UrlModel :=
  let currentOffset := extract_offset pageUrl
  (selectCandidates summaryNext anchorNext).find? (selectAccept currentOffset)

/-! ## Retry delays (`_retry_delay`, `_download_retry_delay`)

Delays are modelled over `ℚ`.  The `Retry-After` header of a response is
modelled after the result of `float(retry_after)`: absent, unparseable,
or a parsed rational.  The uniform jitter draw is an explicit argument;
theorems constrain it to the interval the code draws from. -/

inductive RetryAfterHdr where
  | absent
  | unparseable
  | parsed (value : ℚ)
deriving DecidableEq, Repr

structure RespModel where
  status : Nat
  retryAfter : RetryAfterHdr
deriving DecidableEq, Repr

/-- The advisory delay the code extracts from the response: a parseable,
non-negative `Retry-After` value; anything else falls through. -/
def advisoryDelay (response : Option RespModel) : Option ℚ :=
  match response with
  | some r =>
    match r.retryAfter with
    | RetryAfterHdr.parsed v => if 0 ≤ v then some v else none
    | _ => none
  | none => none

/-- Exponential backoff base of `_retry_delay`:
`backoff_factor * 2 ** (attempt - 1)`. -/
def backoffBase (backoffFactor : ℚ) (attempt : Nat) : ℚ :=
  backoffFactor * 2 ^ (attempt - 1)

/-- `LovtidendScraper._retry_delay` with the random jitter draw passed in
explicitly. -/
def retry_delay (backoffFactor : ℚ) (attempt : Nat) (response : Option RespModel)
    (jitter : ℚ) : ℚ :=
  match advisoryDelay response with
  | some v => v
  | none => backoffBase backoffFactor attempt + jitter

/-- `self._download_retry_min` set in `LovtidendScraper.__init__`. -/
def download_retry_min : ℚ := 3 / 2

/-- `LovtidendScraper._download_retry_delay`: the plain retry delay,
raised to the download floor when it is below it. -/
def download_retry_delay (backoffFactor : ℚ) (attempt : Nat) (response : Option RespModel)
    (jitter : ℚ) : ℚ :=
  let delay := retry_delay backoffFactor attempt response jitter
  if delay < download_retry_min then download_retry_min else delay

/-- `RETRIABLE_STATUSES` from `scraper.py`. -/
def RETRIABLE_STATUSES : List Nat := [408, 425, 429, 500, 502, 503, 504]

/-- `LovtidendScraper._should_retry`. -/
def should_retry (status : Nat) (attempt : Nat) (maxRetries : Nat) : Bool :=
  decide (status ∈ RETRIABLE_STATUSES) && decide (attempt < maxRetries)

/-! ## Checkpoint ledger (`checkpoint.py`)

`save_checkpoint` is modelled by the exact sequence of file-system
operations it performs.  The serialized JSON object is modelled by the
payload record; `updated_at` is an opaque clock string passed in. -/

inductive FsOp where
  | mkdirParent (ofPath : String)
  | writeText (path : String) (resumeUrl : UrlModel) (offset : Option Int)
      (resumeIndex : Int) (totalDocuments : Nat) (totalFiles : Nat) (updatedAt : String)
  | rename (src : String) (dest : String)
  | unlink (path : String)
deriving DecidableEq, Repr

/-- `checkpoint.save_checkpoint` as the list of file-system operations it
issues.  `checkpointExists` reflects `path.exists()` for the deletion
branch; `now` is the `datetime.now(timezone.utc).isoformat()` value. -/
def save_checkpoint (path : String) (checkpointExists : Bool)
    (resumeUrl : Option UrlModel) (resumeIndex : Int)
    (totalDocuments totalFiles : Nat) (now : String) : List FsOp :=
  match resumeUrl with
  | none => if checkpointExists then [FsOp.unlink path] else []
  | some url =>
    let offset := extract_offset url
    let index := if 0 ≤ resumeIndex then resumeIndex else 0
    [FsOp.mkdirParent path,
     FsOp.writeText path url offset index totalDocuments totalFiles now]

/-- Modelled from the spec: the crash-safe replacement discipline the
spec asks of `save_checkpoint` — every byte reaching the checkpoint path
must arrive through a rename of a fully written temporary sibling, never
through a direct write to the checkpoint path. -/
def atomicReplaceDiscipline (ops : List FsOp) (path : String) : Bool :=
  ops.all (fun op =>
    match op with
    | FsOp.writeText p _ _ _ _ _ _ => decide (p ≠ path)
    | _ => true) &&
  ops.any (fun op =>
    match op with
    | FsOp.rename _ dest => decide (dest = path)
    | _ => false)

/-! ## Listing page parsing: the document count check

`_parse_listing` (scraper.py lines 639-673).  BeautifulSoup extraction of
documents, the summary text and the raw anchor URL are external; the
model receives them as a `RawListing` and performs the count check and
next-URL computation, exactly the pure tail of `_parse_listing`. -/

structure RawListing where
  documents : List String
  description : Option String
  firstIndex : Option Nat
  lastIndex : Option Nat
  totalCount : Option Nat
  anchorNext : Option UrlModel
deriving DecidableEq, Repr

structure ParsedListing where
  documents : List String
  nextUrl : Option UrlModel
  description : Option String
  firstIndex : Option Nat
  lastIndex : Option Nat
  totalCount : Option Nat
deriving DecidableEq, Repr

/-- `expected = max(last_index - first_index + 1, 0)` over Python ints. -/
def expectedCount (firstIndex lastIndex : Nat) : Int :=
  max ((lastIndex : Int) - (firstIndex : Int) + 1) 0

/-- Pure tail of `LovtidendScraper._parse_listing`: document count
validation against the summary indices, then next-URL reconciliation. -/
def parse_listing (pageUrl : UrlModel) (raw : RawListing) : Except String ParsedListing :=
  let countOk : Bool :=
    match raw.firstIndex, raw.lastIndex with
    | some f, some l => decide (expectedCount f l = (raw.documents.length : Int))
    | _, _ => true
  if countOk then
    let anchorNext := raw.anchorNext.map (fun a => merge_listing_query pageUrl a)
    let summaryNext : Option UrlModel :=
      match raw.totalCount, raw.lastIndex with
      | some t, some l => if l < t then some (build_offset_url pageUrl (l : Int)) else none
      | _, _ => none
    Except.ok
      { documents := raw.documents
        nextUrl := select_next_url pageUrl summaryNext anchorNext
        description := raw.description
        firstIndex := raw.firstIndex
        lastIndex := raw.lastIndex
        totalCount := raw.totalCount }
  else
    Except.error "listing page reported a document count different from the parsed documents"

/-! ## Download loop (`download_xml`)

A destination is a `pathlib.Path`; for `download_xml` only the final
component matters, split as `stem`/`suffix` so that `with_suffix`
(used for the `.part` temporary and the `.html` fallback sibling)
is exact.  The file system is the list of existing paths; every network
touch and file write is recorded in an event trace.  Per-attempt network
outcomes are an oracle from the attempt number. -/

structure Pathm where
  stem : String
  suffix : String
deriving DecidableEq, Repr

/-- `Path.with_suffix` on a single-extension name. -/
def withSuffix (p : Pathm) (s : String) : Pathm :=
  { p with suffix := s }

/-- `LovtidendScraper._html_fallback_path`. -/
def html_fallback_path (destination : Pathm) : Pathm :=
  withSuffix destination ".html"

/-- The `.part` temporary sibling used while streaming:
`destination.with_suffix(destination.suffix + ".part")`. -/
def tempPartPath (destination : Pathm) : Pathm :=
  withSuffix destination (destination.suffix ++ ".part")

/-- `LovtidendScraper._should_use_html_fallback`; a `None` or empty
fallback URL is falsy in Python. -/
def should_use_html_fallback (maxRetries : Nat) (attempt : Nat)
    (htmlFallbackUrl : Option String) : Bool :=
  match htmlFallbackUrl with
  | none => false
  | some u => if u = "" then false else decide (min maxRetries 3 ≤ attempt)

/-- Outcome of one streamed GET of the XML URL, as seen by the retry
loop: success (body fully written), an `HTTPError` with a status, or any
other `RequestException` (stream errors are re-raised as such). -/
inductive AttemptResult where
  | success
  | httpError (status : Nat)
  | requestError
deriving DecidableEq, Repr

inductive DlErr where
  | httpError (status : Nat)
  | requestError
deriving DecidableEq, Repr

inductive DlEv where
  | xmlRequest (url : String) (attempt : Nat)
  | wroteTemp (p : Pathm)
  | renamed (src dest : Pathm)
  | fallbackFetch (url : String)
  | wroteHtml (p : Pathm) (content : String)
deriving DecidableEq, Repr

/-- Recognize HTML fallback capture events. -/
def isWroteHtml : DlEv → Bool
  | DlEv.wroteHtml _ _ => true
  | _ => false

/-- Recognize XML download attempt events. -/
def isXmlRequest : DlEv → Bool
  | DlEv.xmlRequest _ _ => true
  | _ => false

/-- Python truthiness of the optional fallback URL string. -/
def fallbackTruthy : Option String → Bool
  | none => false
  | some u => decide (u ≠ "")

/-- Add a path to the file-system set. -/
def addPath (fs : List Pathm) (p : Pathm) : List Pathm :=
  if p ∈ fs then fs else p :: fs

/-- Remove a path (`unlink` with `missing_ok`, or the source of a
rename). -/
def removePath (fs : List Pathm) (p : Pathm) : List Pathm :=
  fs.filter (fun q => q ≠ p)

/-- `LovtidendScraper._download_html_fallback` (the cache read only
changes pacing, not state we track): fetch the fallback page, trim it
with `_extract_relevant_html`, write it as the `.html` sibling. -/
def download_html_fallback (fetchHtml : String → String) (trim : String → String)
    (htmlUrl : String) (destination : Pathm) (fs : List Pathm) :
    Pathm × List Pathm × List DlEv :=
  let htmlDestination := html_fallback_path destination
  let content := trim (fetchHtml htmlUrl)
  (htmlDestination, addPath fs htmlDestination,
   [DlEv.fallbackFetch htmlUrl, DlEv.wroteHtml htmlDestination content])

/-- The `while attempt < max_retries` retry loop of `download_xml` for a
single URL.  `attempt` is the counter before increment, `fuel` is
`maxRetries - attempt`; `lastError` mirrors `last_error`.  Returns the
saved path (`none` when the loop falls through its `else` with no
error), the updated file system, and the event trace. -/
def attemptLoop (maxRetries : Nat) (net : Nat → AttemptResult)
    (fetchHtml : String → String) (trim : String → String)
    (xmlUrl : String) (htmlFallbackUrl : Option String) (destination : Pathm) :
    Nat → Nat → List Pathm → Option DlErr →
    Except DlErr (Option Pathm) × List Pathm × List DlEv
  | _, 0, fs, lastError =>
    (match lastError with
     | some e => Except.error e
     | none => Except.ok none, fs, [])
  | attempt, fuel + 1, fs, _ =>
    let attempt := attempt + 1
    let temp := tempPartPath destination
    let reqEv := DlEv.xmlRequest xmlUrl attempt
    match net attempt with
    | AttemptResult.success =>
      let fs := addPath fs temp
      let fs := addPath (removePath fs temp) destination
      (Except.ok (some destination), fs, [reqEv, DlEv.wroteTemp temp, DlEv.renamed temp destination])
    | AttemptResult.httpError status =>
      let fs := removePath fs temp
      if should_use_html_fallback maxRetries attempt htmlFallbackUrl then
        let fb := download_html_fallback fetchHtml trim (htmlFallbackUrl.getD "") destination fs
        (Except.ok (some fb.1), fb.2.1, reqEv :: fb.2.2)
      else if ¬ should_retry status attempt maxRetries then
        (Except.error (DlErr.httpError status), fs, [reqEv])
      else
        let rest := attemptLoop maxRetries net fetchHtml trim xmlUrl htmlFallbackUrl
          destination attempt fuel fs (some (DlErr.httpError status))
        (rest.1, rest.2.1, reqEv :: rest.2.2)
    | AttemptResult.requestError =>
      let fs := removePath fs temp
      if should_use_html_fallback maxRetries attempt htmlFallbackUrl then
        let fb := download_html_fallback fetchHtml trim (htmlFallbackUrl.getD "") destination fs
        (Except.ok (some fb.1), fb.2.1, reqEv :: fb.2.2)
      else if maxRetries ≤ attempt then
        (Except.error DlErr.requestError, fs, [reqEv])
      else
        let rest := attemptLoop maxRetries net fetchHtml trim xmlUrl htmlFallbackUrl
          destination attempt fuel fs (some DlErr.requestError)
        (rest.1, rest.2.1, reqEv :: rest.2.2)

/-- Processing of one URL inside `download_xml`: existing-destination
skips, then the retry loop. -/
def downloadOne (maxRetries : Nat) (overwrite : Bool) (targetPathFn : String → Pathm)
    (net : Nat → AttemptResult) (fetchHtml : String → String) (trim : String → String)
    (xmlUrl : String) (htmlFallbackUrl : Option String) (fs : List Pathm) :
    Except DlErr (Option Pathm) × List Pathm × List DlEv :=
  let destination := targetPathFn xmlUrl
  let htmlDestination := html_fallback_path destination
  if destination ∈ fs ∧ overwrite = false then
    (Except.ok (some destination), fs, [])
  else if fallbackTruthy htmlFallbackUrl = true ∧ htmlDestination ∈ fs ∧ overwrite = false then
    (Except.ok (some htmlDestination), fs, [])
  else
    attemptLoop maxRetries net fetchHtml trim xmlUrl htmlFallbackUrl destination
      0 maxRetries fs none

/-- `LovtidendScraper.download_xml` over a URL list.  `net` is indexed by
the position of the URL in the list and the attempt number.  An error
aborts the whole call (the exception propagates); events up to the
failure are kept. -/
def download_xml (maxRetries : Nat) (overwrite : Bool) (targetPathFn : String → Pathm)
    (net : Nat → Nat → AttemptResult) (fetchHtml : String → String) (trim : String → String)
    (htmlFallbackUrl : Option String) :
    List String → Nat → List Pathm →
    Except DlErr (List Pathm) × List Pathm × List DlEv
  | [], _, fs => (Except.ok [], fs, [])
  | xmlUrl :: rest, i, fs =>
    match downloadOne maxRetries overwrite targetPathFn (net i) fetchHtml trim
        xmlUrl htmlFallbackUrl fs with
    | (Except.error e, fs1, evs) => (Except.error e, fs1, evs)
    | (Except.ok saved, fs1, evs) =>
      let restRes := download_xml maxRetries overwrite targetPathFn net fetchHtml trim
        htmlFallbackUrl rest (i + 1) fs1
      match restRes with
      | (Except.error e, fs2, evs2) => (Except.error e, fs2, evs ++ evs2)
      | (Except.ok paths, fs2, evs2) =>
        (Except.ok (match saved with
          | some p => p :: paths
          | none => paths), fs2, evs ++ evs2)

/-! ## Output path computation (`_target_path`)

Paths are modelled as their component lists (the result of
`pathlib.Path.parts`, without the anchor); `resolve` processes `..`
components, never rising above the file-system root. -/

/-- Split a character list at `/` separators. -/
def splitSlashAux : List Char → List Char → List String
  | [], acc => [String.mk acc.reverse]
  | c :: rest, acc =>
    if c = '/' then String.mk acc.reverse :: splitSlashAux rest []
    else splitSlashAux rest (c :: acc)

/-- Components of a POSIX path string as `pathlib` produces them:
empty and `.` components vanish, `..` stays. -/
def pathSegments (p : String) : List String :=
  (splitSlashAux p.toList []).filter (fun s => s ≠ "" ∧ s ≠ ".")

/-- Leftmost match of the regex `(19|20)\d{2}` in a character list. -/
def yearScan : List Char → Option Nat
  | c1 :: c2 :: c3 :: c4 :: rest =>
    if ((c1 = '1' ∧ c2 = '9') ∨ (c1 = '2' ∧ c2 = '0')) ∧ c3.isDigit ∧ c4.isDigit then
      some ((c1.toNat - 48) * 1000 + (c2.toNat - 48) * 100 +
            (c3.toNat - 48) * 10 + (c4.toNat - 48))
    else
      yearScan (c2 :: c3 :: c4 :: rest)
  | _ => none

/-- `LovtidendScraper._year_from_fragment`. -/
def year_from_fragment (fragment : String) : Option Nat :=
  yearScan fragment.toList

/-- First year found in a list of strings, in order. -/
def firstYearIn : List String → Option Nat
  | [] => none
  | v :: rest =>
    match year_from_fragment v with
    | some y => some y
    | none => firstYearIn rest

/-- `LovtidendScraper._guess_year`: query parameter values in insertion
order first, then the URL path. -/
def guess_year (u : UrlModel) : Option Nat :=
  match firstYearIn (u.query.flatMap (fun kv => kv.2)) with
  | some y => some y
  | none => year_from_fragment u.path

/-- `Path.resolve` on an already-absolute component list: `..` pops one
component, bottoming out at the file-system root. -/
def resolveSegs (segs : List String) : List String :=
  segs.foldl (fun acc s => if s = ".." then acc.dropLast else acc ++ [s]) []

/-- The relative path `_target_path` builds before joining to the output
root: URL path components, a leading `xml` component stripped, the
guessed 4-digit year prepended unless already leading. -/
def target_rel (u : UrlModel) : List String :=
  let relative := pathSegments u.path
  let relative := match relative with
    | "xml" :: rest => rest
    | _ => relative
  let name := (relative.getLast?).getD ""
  let year := match guess_year u with
    | some y => some y
    | none => year_from_fragment name
  match year with
  | some y =>
    if relative = [] ∨ relative.head? ≠ some (toString y) then
      toString y :: relative
    else
      relative
  | none => relative

/-- `LovtidendScraper._target_path`: resolve the joined path and insist
it stays under the resolved output root, raising otherwise. -/
def target_path (outputRoot : List String) (u : UrlModel) : Except String (List String) :=
  let target := resolveSegs (outputRoot ++ target_rel u)
  if outputRoot.isPrefixOf target then
    Except.ok target
  else
    Except.error "Unexpected XML path outside output directory"

/-! ## Pagination walker (`iter_pages`)

The walker is a loop over listing pages.  One loop iteration is
`iterStep`; the loop itself is fuel-bounded recursion (the real loop can
run as long as the site keeps producing fresh pages).  The network and
BeautifulSoup are the oracle `site`, taking the page URL and the
cache-bypass flag. -/

structure WalkSt where
  processed : Nat
  pageNumber : Nat
  visited : List UrlModel
  seenOffsets : List Int
  lastDescription : Option String
  lastOffset : Option Int
deriving DecidableEq, Repr

structure PageOut where
  number : Nat
  documents : List String
  currentUrl : UrlModel
  nextUrl : Option UrlModel
  resumeUrl : Option UrlModel
  description : Option String
  firstIndex : Option Nat
  lastIndex : Option Nat
  totalCount : Option Nat
deriving DecidableEq, Repr

/-- Result of one iteration of the `while current_url` loop: stop without
yielding (a `break` before `yield`, possibly a raised parse error), yield
then stop, or yield and continue at the next URL. -/
inductive StepRes where
  | stop (err : Option String)
  | yieldStop (page : PageOut)
  | yieldCont (page : PageOut) (next : UrlModel) (st : WalkSt)
deriving Repr

/-- Python string truthiness. -/
def strTruthy (s : String) : Bool :=
  decide (s ≠ "")

/-- The body of one `iter_pages` iteration after the loop-detection
guards: fetch (with the one-shot cache bypass), truncate to the limit,
stall detection, yield decision.  Does not touch `visited` or
`seenOffsets`. -/
def iterStepBody (site : UrlModel → Bool → Except String RawListing)
    (maxPages : Option Nat) (limit : Option Nat)
    (currentUrl : UrlModel) (offsetValue : Option Int) (st : WalkSt) : StepRes :=
  let st := { st with pageNumber := st.pageNumber + 1 }
  let fetchParse : Bool → Except String ParsedListing := fun bypass =>
    match site currentUrl bypass with
    | Except.error e => Except.error e
    | Except.ok raw => parse_listing currentUrl raw
  match fetchParse false with
  | Except.error e => StepRes.stop (some e)
  | Except.ok parsed0 =>
    let needBypass : Bool :=
      match offsetValue, parsed0.firstIndex with
      | some ov, some fi => decide (0 < ov) && decide ((fi : Int) ≤ ov)
      | _, _ => false
    match (if needBypass then fetchParse true else Except.ok parsed0) with
    | Except.error e => StepRes.stop (some e)
    | Except.ok parsed =>
      let nextUrl := parsed.nextUrl.map normalize_listing_url
      let remaining : Option Nat :=
        match limit with
        | some lim => some (lim - st.processed)
        | none => none
      if remaining = some 0 then StepRes.stop none
      else
        let truncated : Bool :=
          match remaining with
          | some r => decide (r < parsed.documents.length)
          | none => false
        let currentDocuments :=
          match remaining with
          | some r => if r < parsed.documents.length then parsed.documents.take r else parsed.documents
          | none => parsed.documents
        let descrCheck : Bool :=
          !truncated && (match parsed.description with
            | some d => strTruthy d
            | none => false)
        let stall : Bool :=
          descrCheck && (match st.lastDescription, parsed.description with
            | some ld, some d =>
              strTruthy ld && decide (d = ld) &&
                (decide (offsetValue = none) || decide (offsetValue = st.lastOffset))
            | _, _ => false)
        if stall then StepRes.stop none
        else
          let st := if descrCheck then
              { st with lastDescription := parsed.description, lastOffset := offsetValue }
            else st
          let st := { st with processed := st.processed + currentDocuments.length }
          let page : PageOut :=
            { number := st.pageNumber
              documents := currentDocuments
              currentUrl := currentUrl
              nextUrl := nextUrl
              resumeUrl := if truncated then some currentUrl else nextUrl
              description := parsed.description
              firstIndex := parsed.firstIndex
              lastIndex := parsed.lastIndex
              totalCount := parsed.totalCount }
          if truncated then StepRes.yieldStop page
          else
            match nextUrl with
            | none => StepRes.yieldStop page
            | some nxt =>
              let budgetSpent : Bool :=
                match maxPages with
                | some mp => decide (mp ≤ st.pageNumber)
                | none => false
              if budgetSpent then StepRes.yieldStop page
              else if nxt ∈ st.visited then StepRes.yieldStop page
              else StepRes.yieldCont page nxt st

/-- One full iteration of the `while current_url` loop, including the
repeated-locator and repeated-offset guards at its top. -/
def iterStep (site : UrlModel → Bool → Except String RawListing)
    (maxPages : Option Nat) (limit : Option Nat)
    (currentUrl : UrlModel) (st : WalkSt) : StepRes :=
  if currentUrl ∈ st.visited then StepRes.stop none
  else
    let st := { st with visited := currentUrl :: st.visited }
    let offsetValue := extract_offset currentUrl
    let offsetSeen : Bool :=
      match offsetValue with
      | some o => decide (o ∈ st.seenOffsets)
      | none => false
    if offsetSeen then StepRes.stop none
    else
      let st :=
        match offsetValue with
        | some o => { st with seenOffsets := o :: st.seenOffsets }
        | none => st
      iterStepBody site maxPages limit currentUrl offsetValue st

/-- The fuel-bounded walker loop: pages accepted (fetched and yielded) in
order, plus the error that aborted it, if any. -/
def iterPagesGo (site : UrlModel → Bool → Except String RawListing)
    (maxPages : Option Nat) (limit : Option Nat) :
    Nat → UrlModel → WalkSt → List PageOut × Option String
  | 0, _, _ => ([], none)
  | fuel + 1, currentUrl, st =>
    match iterStep site maxPages limit currentUrl st with
    | StepRes.stop err => ([], err)
    | StepRes.yieldStop page => ([page], none)
    | StepRes.yieldCont page nxt st2 =>
      let rest := iterPagesGo site maxPages limit fuel nxt st2
      (page :: rest.1, rest.2)

/-- `LovtidendScraper.iter_pages`: the early `max_pages <= 0` return, the
initial normalization of the start URL, and the loop. -/
def iter_pages (site : UrlModel → Bool → Except String RawListing)
    (startUrl : UrlModel) (maxPages : Option Nat) (limit : Option Nat)
    (fuel : Nat) : List PageOut × Option String :=
  if maxPages = some 0 then ([], none)
  else
    iterPagesGo site maxPages limit fuel (normalize_listing_url startUrl)
      { processed := 0, pageNumber := 0, visited := [], seenOffsets := []
        lastDescription := none, lastOffset := none }

/-! ## Orchestrator: per-page document processing (`run`, lines 852-980)

For one page yielded by the walker, `run` resolves and downloads each
document and maintains `contiguous_prefix` / `page_resume_index`,
checkpointing along the way.  The per-document work (link resolution and
download) is abstracted into its observable outcome. -/

structure RunTotals where
  totalDocuments : Nat
  totalFiles : Nat
deriving DecidableEq, Repr

/-- One call of `update_checkpoint_file` as issued by `run`. -/
structure CkptSave where
  resumeUrl : Option UrlModel
  resumeIndex : Nat
  totalDocuments : Nat
  totalFiles : Nat
deriving DecidableEq, Repr

/-- What happened for one document of the page: `fetch_xml_links` raised,
it returned no links, `download_xml` succeeded with `filesWritten`
paths, or `download_xml` raised. -/
inductive DocOutcome where
  | fetchLinksError
  | noLinks
  | ok (filesWritten : Nat)
  | downloadError
deriving DecidableEq, Repr

structure LoopSt where
  contiguous : Bool
  resumeIdx : Nat
  totals : RunTotals
  saves : List CkptSave
deriving DecidableEq, Repr

/-- A `update_checkpoint_file(checkpoint_location, resume_url=page.current_url,
resume_index=page_resume_index, ...)` call, recorded when checkpointing
is on. -/
def recordSave (useCheckpoint : Bool) (pageUrl : UrlModel) (st : LoopSt) : LoopSt :=
  if useCheckpoint then
    { st with saves := st.saves ++
        [{ resumeUrl := some pageUrl, resumeIndex := st.resumeIdx
           totalDocuments := st.totals.totalDocuments, totalFiles := st.totals.totalFiles }] }
  else st

/-- The `for idx, document in enumerate(documents)` loop of `run`.
Returns the state and whether a download error aborted the loop (the
exception is re-raised after checkpointing). -/
def docsLoop (useCheckpoint : Bool) (pageUrl : UrlModel) (skipInPage : Nat) :
    Nat → List DocOutcome → LoopSt → LoopSt × Bool
  | _, [], st => (st, false)
  | idx, outcome :: rest, st =>
    if idx < skipInPage then
      docsLoop useCheckpoint pageUrl skipInPage (idx + 1) rest st
    else
      match outcome with
      | DocOutcome.fetchLinksError =>
        let st := if st.contiguous then
            recordSave useCheckpoint pageUrl { st with contiguous := false, resumeIdx := idx }
          else st
        docsLoop useCheckpoint pageUrl skipInPage (idx + 1) rest st
      | DocOutcome.noLinks =>
        let st := if st.contiguous then
            recordSave useCheckpoint pageUrl { st with resumeIdx := idx + 1 }
          else st
        docsLoop useCheckpoint pageUrl skipInPage (idx + 1) rest st
      | DocOutcome.downloadError =>
        let st := if st.contiguous then
            recordSave useCheckpoint pageUrl { st with contiguous := false, resumeIdx := idx }
          else st
        (st, true)
      | DocOutcome.ok filesWritten =>
        let newTotals : RunTotals :=
          { totalDocuments := st.totals.totalDocuments + 1
            totalFiles := st.totals.totalFiles + filesWritten }
        let st2 := { st with totals := newTotals
                             resumeIdx := if st.contiguous then idx + 1 else st.resumeIdx }
        let st2 := if st.contiguous then recordSave useCheckpoint pageUrl st2 else st2
        docsLoop useCheckpoint pageUrl skipInPage (idx + 1) rest st2

/-- Lines 859-867 of `run`: skip count and initial in-page resume index
from the loaded checkpoint index (`local_resume_index`), honouring
Python truthiness of the index and the document list. -/
def compute_skip (localResumeIndex : Nat) (docCount : Nat) : Nat × Nat :=
  if localResumeIndex ≠ 0 ∧ docCount ≠ 0 then
    (min localResumeIndex docCount, min localResumeIndex docCount)
  else
    (0, localResumeIndex)

/-- Processing of one yielded page inside `run`: the pre-loop checkpoint,
the document loop, and the post-loop checkpoint (skipped when the
download error propagates).  Returns the final state (with the full
ordered list of checkpoint saves) and the aborted flag. -/
def process_page (useCheckpoint : Bool) (pageUrl : UrlModel) (pageResumeUrl : Option UrlModel)
    (localResumeIndex : Nat) (outcomes : List DocOutcome) (totals : RunTotals) :
    LoopSt × Bool :=
  let sk := compute_skip localResumeIndex outcomes.length
  let st0 : LoopSt := { contiguous := true, resumeIdx := sk.2, totals := totals, saves := [] }
  let st0 := recordSave useCheckpoint pageUrl st0
  let r := docsLoop useCheckpoint pageUrl sk.1 0 outcomes st0
  if r.2 then r
  else
    let st := r.1
    let pageTruncated : Bool := decide (pageResumeUrl = some pageUrl)
    let pageCompleted : Bool := st.contiguous && decide (outcomes.length ≤ st.resumeIdx)
    if useCheckpoint then
      if pageTruncated || !pageCompleted then
        (recordSave true pageUrl st, false)
      else
        ({ st with saves := st.saves ++
            [{ resumeUrl := pageResumeUrl, resumeIndex := 0
               totalDocuments := st.totals.totalDocuments
               totalFiles := st.totals.totalFiles }] }, false)
    else (st, false)

/-! ## Concrete sample data for witnesses and counterexamples -/

/-- A listing URL with year/filter query parameters and no offset. -/
def sampleListUrl : UrlModel :=
  { scheme := "https", netloc := "lovdata.no", path := "/register/lovtidend"
    query := [("year", ["1982"]), ("foo", ["bar"])], fragment := "" }

/-- `sampleListUrl` advanced to a numeric pagination offset. -/
def sampleOffsetUrl (n : Int) : UrlModel :=
  { sampleListUrl with query := sampleListUrl.query ++ [("offset", [toString n])] }

/-- A well-formed one-page raw listing (two documents, summary 1-2 of 2). -/
def sampleRawListing : RawListing :=
  { documents := ["d1", "d2"], description := some "Viser 1 - 2 av 2 treff"
    firstIndex := some 1, lastIndex := some 2, totalCount := some 2, anchorNext := none }

/-- An XML file URL shaped like the fixtures in the repository tests. -/
def sampleXmlUrl : UrlModel :=
  { scheme := "https", netloc := "lovdata.no", path := "/xml/LTI/sf-19821209-1673.xml"
    query := [], fragment := "" }

/-- A site oracle that always serves the same two-of-four listing page. -/
def sampleSite : UrlModel → Bool → Except String RawListing := fun _ _ =>
  Except.ok
    { documents := ["d1", "d2"], description := some "Viser 1 - 2 av 4 treff"
      firstIndex := some 1, lastIndex := some 2, totalCount := some 4
      anchorNext := none }

/-! # Theorems -/

/-! ### C8 — retry delay computation -/

/-- C8 counterexample: for a streamed download retry, a parseable
non-negative advisory `Retry-After` of `1/2` is not used verbatim — the
download retry floor of `3/2` overrides it. -/
theorem c8_counterexample :
    download_retry_delay (13 / 20) 1
        (some { status := 503, retryAfter := RetryAfterHdr.parsed (1 / 2) }) 0 = 3 / 2 ∧
      (3 / 2 : ℚ) ≠ 1 / 2 := by
  constructor
  · norm_num [download_retry_delay, retry_delay, advisoryDelay, download_retry_min]
  · norm_num

/-- C8 (amended): the retry delay is `backoff_factor * 2 ^ (attempt - 1)`
plus the jitter draw from `[0, base/2]`; a parseable non-negative advisory
`Retry-After` value replaces it verbatim; a streamed download applies a
floor of `3/2` seconds on top, so its delay is the maximum of the
computed delay and `3/2`. -/
theorem c8_retry_delay_amended (backoffFactor : ℚ) (attempt : Nat)
    (response : Option RespModel) (jitter : ℚ)
    (hj0 : 0 ≤ jitter) (hj1 : jitter ≤ backoffBase backoffFactor attempt / 2) :
    (advisoryDelay response = none →
      retry_delay backoffFactor attempt response jitter =
        backoffFactor * 2 ^ (attempt - 1) + jitter) ∧
    (∀ status : Nat, ∀ v : ℚ,
      response = some { status := status, retryAfter := RetryAfterHdr.parsed v } →
      0 ≤ v → retry_delay backoffFactor attempt response jitter = v) ∧
    download_retry_delay backoffFactor attempt response jitter =
      max (retry_delay backoffFactor attempt response jitter) download_retry_min := by
  refine ⟨fun h => ?_, fun status v hr hv => ?_, ?_⟩
  · simp [retry_delay, h, backoffBase]
  · simp [retry_delay, advisoryDelay, hr, hv]
  · simp only [download_retry_delay]
    rcases lt_or_le (retry_delay backoffFactor attempt response jitter) download_retry_min with h | h
    · simp [h, max_eq_right h.le]
    · simp [not_lt.mpr h, max_eq_left h]

/-- C8 witness: the amended delay law evaluated at attempt 1 with no
advisory header and zero jitter. -/
theorem c8_witness :
    retry_delay (13 / 20) 1 none 0 = (13 / 20 : ℚ) * 2 ^ (1 - 1) + 0 ∧
    download_retry_delay (13 / 20) 1 none 0 =
      max (retry_delay (13 / 20) 1 none 0) download_retry_min := by
  have h := c8_retry_delay_amended (13 / 20) 1 none 0 (by norm_num)
    (by norm_num [backoffBase])
  exact ⟨h.1 rfl, h.2.2⟩

/-! ### C3 — checkpoint persistence discipline -/

/-- C3 counterexample: a concrete `save_checkpoint` call with a resume
locator writes the checkpoint path directly and performs no rename, so
the write-to-temporary-then-rename discipline claimed by the spec does
not hold. -/
theorem c3_counterexample :
    atomicReplaceDiscipline
      (save_checkpoint "data/lovtidend_checkpoint.json" true (some sampleListUrl) 2 5 7 "now")
      "data/lovtidend_checkpoint.json" = false := by
  decide

/-- C3 (amended): with a non-none resume locator, `save_checkpoint`
replaces the checkpoint by exactly one direct `write_text` of the
complete snapshot to the checkpoint path, preceded only by a parent
`mkdir`; no temporary file or rename is involved, so the replacement is
a single self-consistent write but not an atomic rename. -/
theorem c3_save_checkpoint_amended (path : String) (checkpointExists : Bool)
    (url : UrlModel) (resumeIndex : Int) (totalDocuments totalFiles : Nat) (now : String) :
    save_checkpoint path checkpointExists (some url) resumeIndex totalDocuments totalFiles now =
      [FsOp.mkdirParent path,
       FsOp.writeText path url (extract_offset url)
         (if 0 ≤ resumeIndex then resumeIndex else 0) totalDocuments totalFiles now] ∧
    atomicReplaceDiscipline
      (save_checkpoint path checkpointExists (some url) resumeIndex totalDocuments
        totalFiles now) path = false := by
  constructor
  · rfl
  · simp [save_checkpoint, atomicReplaceDiscipline]

/-! ### C6 — listing document count invariant -/

/-- C6 counterexample: a summary reporting `first = 5, last = 1` with
zero parsed documents violates `last - first + 1 = count` (it is `-3`
against `0`), yet `_parse_listing` accepts the page because it clamps
the expected count with `max(…, 0)`. -/
theorem c6_counterexample :
    (parse_listing sampleListUrl
      { documents := [], description := some "Viser 5 - 1 av 0"
        firstIndex := some 5, lastIndex := some 1, totalCount := some 0
        anchorNext := none }).isOk = true ∧
    ((1 : Int) - 5 + 1 ≠ (([] : List String).length : Int)) := by
  constructor
  · rfl
  · decide

/-- C6 (amended): when the summary carries both indices, `_parse_listing`
rejects the page exactly when `max(last - first + 1, 0)` differs from
the number of parsed documents; the unclamped difference may disagree
only in the degenerate case `last < first - 1` with zero documents. -/
theorem c6_parse_count_amended (pageUrl : UrlModel) (raw : RawListing)
    (f l : Nat) (hf : raw.firstIndex = some f) (hl : raw.lastIndex = some l) :
    (parse_listing pageUrl raw).isOk = true ↔
      expectedCount f l = (raw.documents.length : Int) := by
  by_cases h : expectedCount f l = (raw.documents.length : Int)
  · simp [parse_listing, hf, hl, h, Except.isOk, Except.toBool]
  · simp [parse_listing, hf, hl, h, Except.isOk, Except.toBool]

/-- C6 witness: the amended count law on a concrete well-formed page. -/
theorem c6_witness :
    (parse_listing sampleListUrl sampleRawListing).isOk = true :=
  (c6_parse_count_amended sampleListUrl sampleRawListing 1 2 rfl rfl).mpr (by decide)

/-! ### C4 — next-page reconciliation -/

/-- C4: `_select_next_url` tries the summary-derived candidate before the
anchor-derived one; with the current page offset present, a candidate is
accepted exactly when it has no numeric offset or its offset strictly
exceeds the current one; no qualifying candidate yields `none`; and when
both candidates carry offsets and the summary offset strictly exceeds
the current offset, the summary candidate is returned. -/
theorem c4_select_next_url (pageUrl : UrlModel) (summaryNext anchorNext : Option UrlModel)
    (po : Int) (hpo : extract_offset pageUrl = some po) :
    (∀ c, selectAccept (extract_offset pageUrl) c = true ↔
      (extract_offset c = none ∨ ∃ co, extract_offset c = some co ∧ po < co)) ∧
    (∀ s, summaryNext = some s → selectAccept (extract_offset pageUrl) s = true →
      select_next_url pageUrl summaryNext anchorNext = some s) ∧
    ((∀ c ∈ selectCandidates summaryNext anchorNext,
        selectAccept (extract_offset pageUrl) c = false) →
      select_next_url pageUrl summaryNext anchorNext = none) ∧
    (∀ c, select_next_url pageUrl summaryNext anchorNext = some c →
      c ∈ selectCandidates summaryNext anchorNext ∧
        selectAccept (extract_offset pageUrl) c = true) ∧
    (∀ s so, summaryNext = some s → extract_offset s = some so → po < so →
      select_next_url pageUrl summaryNext anchorNext = some s) := by
  have haccept : ∀ c, selectAccept (extract_offset pageUrl) c = true ↔
      (extract_offset c = none ∨ ∃ co, extract_offset c = some co ∧ po < co) := by
    intro c
    rw [hpo]
    cases hc : extract_offset c with
    | none => simp [selectAccept, hc]
    | some co => simp [selectAccept, hc]
  have hsummary : ∀ s, summaryNext = some s →
      selectAccept (extract_offset pageUrl) s = true →
      select_next_url pageUrl summaryNext anchorNext = some s := by
    intro s hs hacc
    subst hs
    simp only [select_next_url, selectCandidates]
    cases anchorNext with
    | none => simp [List.find?, hacc]
    | some a =>
      by_cases heq : a = s
      · simp [heq, List.find?, hacc]
      · simp [heq, List.find?, hacc]
  refine ⟨haccept, hsummary, ?_, ?_, ?_⟩
  · intro hall
    exact List.find?_eq_none.mpr (fun c hc => by simp [hall c hc])
  · intro c hc
    exact ⟨List.mem_of_find?_eq_some hc, List.find?_some hc⟩
  · intro s so hs hso hlt
    refine hsummary s hs ?_
    rw [hpo]
    simp [selectAccept, hso, hlt]

/-- C4 witness: current offset 20, summary candidate at offset 40,
anchor candidate at offset 30 — the summary candidate is returned. -/
theorem c4_witness :
    select_next_url (sampleOffsetUrl 20) (some (sampleOffsetUrl 40))
      (some (sampleOffsetUrl 30)) = some (sampleOffsetUrl 40) := by
  have h := c4_select_next_url (sampleOffsetUrl 20) (some (sampleOffsetUrl 40))
    (some (sampleOffsetUrl 30)) 20 rfl
  exact h.2.2.2.2 (sampleOffsetUrl 40) 40 rfl rfl (by decide)

/-! ### C10 — output path confinement -/

/-- C10: `_target_path` either returns the resolved join of the output
root with the stripped, year-prefixed relative URL path — and that
result always has the output root as a prefix — or it raises; it raises
exactly when the resolved path escapes the output root. -/
theorem c10_target_path_safe (outputRoot : List String) (u : UrlModel) :
    (∀ p, target_path outputRoot u = Except.ok p → outputRoot <+: p) ∧
    (∀ p, target_path outputRoot u = Except.ok p →
      p = resolveSegs (outputRoot ++ target_rel u)) ∧
    ((target_path outputRoot u).isOk = false ↔
      ¬ outputRoot <+: resolveSegs (outputRoot ++ target_rel u)) := by
  by_cases h : outputRoot.isPrefixOf (resolveSegs (outputRoot ++ target_rel u))
  · have hpre := List.isPrefixOf_iff_prefix.mp h
    refine ⟨fun p hp => ?_, fun p hp => ?_, ?_⟩
    · simp only [target_path, h, if_true, Except.ok.injEq] at hp
      exact hp ▸ hpre
    · simp only [target_path, h, if_true, Except.ok.injEq] at hp
      exact hp.symm
    · simp [target_path, h, Except.isOk, Except.toBool, hpre]
  · have hnp : ¬ outputRoot <+: resolveSegs (outputRoot ++ target_rel u) :=
      fun hpre => h (List.isPrefixOf_iff_prefix.mpr hpre)
    refine ⟨fun p hp => ?_, fun p hp => ?_, ?_⟩
    · simp [target_path, h] at hp
    · simp [target_path, h] at hp
    · simp [target_path, h, Except.isOk, Except.toBool, hnp]

/-- C10 witness: the safety law applied to a concrete XML URL of the
shape the repository tests use. -/
theorem c10_witness :
    ["out"] <+: ["out", "1982", "LTI", "sf-19821209-1673.xml"] :=
  (c10_target_path_safe ["out"] sampleXmlUrl).1 _ (by rfl)

/-! ### C7 — bounded HTML fallback -/

/-- Helper: in any run of the download retry loop, at most one HTML
fallback capture is written, and it is always the final event of the
file's trace (in particular no XML attempt follows it). -/
theorem attemptLoop_wroteHtml_spec (maxRetries : Nat) (net : Nat → AttemptResult)
    (fetchHtml trim : String → String) (xmlUrl : String) (fbu : Option String)
    (destination : Pathm) :
    ∀ fuel attempt fs lastErr,
      (((attemptLoop maxRetries net fetchHtml trim xmlUrl fbu destination
          attempt fuel fs lastErr).2.2).filter isWroteHtml).length ≤ 1 ∧
      (∀ l p c r,
        (attemptLoop maxRetries net fetchHtml trim xmlUrl fbu destination
          attempt fuel fs lastErr).2.2 = l ++ DlEv.wroteHtml p c :: r → r = []) := by
  intro fuel
  induction fuel with
  | zero =>
    intro attempt fs lastErr
    refine ⟨by simp [attemptLoop], fun l p c r h => ?_⟩
    simp [attemptLoop] at h
  | succ fuel ih =>
    intro attempt fs lastErr
    cases hnet : net (attempt + 1) with
    | success =>
      have hev : (attemptLoop maxRetries net fetchHtml trim xmlUrl fbu destination
          attempt (fuel + 1) fs lastErr).2.2 =
          [DlEv.xmlRequest xmlUrl (attempt + 1),
           DlEv.wroteTemp (tempPartPath destination),
           DlEv.renamed (tempPartPath destination) destination] := by
        simp [attemptLoop, hnet]
      refine ⟨by rw [hev]; simp [isWroteHtml], fun l p c r h => ?_⟩
      rw [hev] at h
      rcases l with _ | ⟨a, _ | ⟨b, _ | ⟨d, l⟩⟩⟩ <;> simp_all
    | httpError status =>
      by_cases hsb : should_use_html_fallback maxRetries (attempt + 1) fbu = true
      · have hev : (attemptLoop maxRetries net fetchHtml trim xmlUrl fbu destination
            attempt (fuel + 1) fs lastErr).2.2 =
            [DlEv.xmlRequest xmlUrl (attempt + 1),
             DlEv.fallbackFetch (fbu.getD ""),
             DlEv.wroteHtml (html_fallback_path destination)
               (trim (fetchHtml (fbu.getD "")))] := by
          simp [attemptLoop, hnet, hsb, download_html_fallback]
        refine ⟨by rw [hev]; simp [isWroteHtml], fun l p c r h => ?_⟩
        rw [hev] at h
        rcases l with _ | ⟨a, _ | ⟨b, _ | ⟨d, l⟩⟩⟩ <;> simp_all
      · by_cases hr : should_retry status (attempt + 1) maxRetries = true
        · have hev : (attemptLoop maxRetries net fetchHtml trim xmlUrl fbu destination
              attempt (fuel + 1) fs lastErr).2.2 =
              DlEv.xmlRequest xmlUrl (attempt + 1) ::
                (attemptLoop maxRetries net fetchHtml trim xmlUrl fbu destination
                  (attempt + 1) fuel (removePath fs (tempPartPath destination))
                  (some (DlErr.httpError status))).2.2 := by
            simp [attemptLoop, hnet, hsb, hr]
          have hrec := ih (attempt + 1) (removePath fs (tempPartPath destination))
            (some (DlErr.httpError status))
          refine ⟨?_, fun l p c r h => ?_⟩
          · rw [hev]
            simpa [isWroteHtml] using hrec.1
          · rw [hev] at h
            rcases l with _ | ⟨a, l⟩
            · simp at h
            · simp only [List.cons_append, List.cons.injEq] at h
              exact hrec.2 l p c r h.2
        · have hev : (attemptLoop maxRetries net fetchHtml trim xmlUrl fbu destination
              attempt (fuel + 1) fs lastErr).2.2 =
              [DlEv.xmlRequest xmlUrl (attempt + 1)] := by
            simp [attemptLoop, hnet, hsb, hr]
          refine ⟨by rw [hev]; simp [isWroteHtml], fun l p c r h => ?_⟩
          rw [hev] at h
          rcases l with _ | ⟨a, l⟩ <;> simp_all
    | requestError =>
      by_cases hsb : should_use_html_fallback maxRetries (attempt + 1) fbu = true
      · have hev : (attemptLoop maxRetries net fetchHtml trim xmlUrl fbu destination
            attempt (fuel + 1) fs lastErr).2.2 =
            [DlEv.xmlRequest xmlUrl (attempt + 1),
             DlEv.fallbackFetch (fbu.getD ""),
             DlEv.wroteHtml (html_fallback_path destination)
               (trim (fetchHtml (fbu.getD "")))] := by
          simp [attemptLoop, hnet, hsb, download_html_fallback]
        refine ⟨by rw [hev]; simp [isWroteHtml], fun l p c r h => ?_⟩
        rw [hev] at h
        rcases l with _ | ⟨a, _ | ⟨b, _ | ⟨d, l⟩⟩⟩ <;> simp_all
      · by_cases hx : maxRetries ≤ attempt + 1
        · have hev : (attemptLoop maxRetries net fetchHtml trim xmlUrl fbu destination
              attempt (fuel + 1) fs lastErr).2.2 =
              [DlEv.xmlRequest xmlUrl (attempt + 1)] := by
            simp [attemptLoop, hnet, hsb, hx]
          refine ⟨by rw [hev]; simp [isWroteHtml], fun l p c r h => ?_⟩
          rw [hev] at h
          rcases l with _ | ⟨a, l⟩ <;> simp_all
        · have hev : (attemptLoop maxRetries net fetchHtml trim xmlUrl fbu destination
              attempt (fuel + 1) fs lastErr).2.2 =
              DlEv.xmlRequest xmlUrl (attempt + 1) ::
                (attemptLoop maxRetries net fetchHtml trim xmlUrl fbu destination
                  (attempt + 1) fuel (removePath fs (tempPartPath destination))
                  (some DlErr.requestError)).2.2 := by
            simp [attemptLoop, hnet, hsb, hx]
          have hrec := ih (attempt + 1) (removePath fs (tempPartPath destination))
            (some DlErr.requestError)
          refine ⟨?_, fun l p c r h => ?_⟩
          · rw [hev]
            simpa [isWroteHtml] using hrec.1
          · rw [hev] at h
            rcases l with _ | ⟨a, l⟩
            · simp at h
            · simp only [List.cons_append, List.cons.injEq] at h
              exact hrec.2 l p c r h.2

/-- C7: with a (truthy) fallback URL supplied, an HTTP error on an
attempt that has reached `min(max_retries, 3)` abandons the structured
download: the trimmed snapshot fetched from the fallback URL is written
as the `.html`-suffixed sibling of the destination and the loop returns
it; moreover any single file's trace carries at most one fallback
capture, and nothing — in particular no XML attempt — follows it. -/
theorem c7_html_fallback (maxRetries : Nat) (overwrite : Bool)
    (targetPathFn : String → Pathm) (net : Nat → AttemptResult)
    (fetchHtml trim : String → String) (xmlUrl fb : String) (destination : Pathm)
    (hfb : fb ≠ "") :
    (∀ attempt fuel fs lastErr status,
      net (attempt + 1) = AttemptResult.httpError status →
      min maxRetries 3 ≤ attempt + 1 →
      attemptLoop maxRetries net fetchHtml trim xmlUrl (some fb) destination
          attempt (fuel + 1) fs lastErr =
        (Except.ok (some (withSuffix destination ".html")),
         addPath (removePath fs (tempPartPath destination)) (withSuffix destination ".html"),
         [DlEv.xmlRequest xmlUrl (attempt + 1), DlEv.fallbackFetch fb,
          DlEv.wroteHtml (withSuffix destination ".html") (trim (fetchHtml fb))])) ∧
    (∀ fs,
      (((downloadOne maxRetries overwrite targetPathFn net fetchHtml trim xmlUrl
          (some fb) fs).2.2).filter isWroteHtml).length ≤ 1) ∧
    (∀ fs l p c r,
      (downloadOne maxRetries overwrite targetPathFn net fetchHtml trim xmlUrl
          (some fb) fs).2.2 = l ++ DlEv.wroteHtml p c :: r → r = []) := by
  have hfallback : should_use_html_fallback maxRetries (0 + 1) (some fb) = true →
      True := fun _ => trivial
  refine ⟨fun attempt fuel fs lastErr status hnet hmin => ?_, fun fs => ?_, fun fs l p c r h => ?_⟩
  · have hsb : should_use_html_fallback maxRetries (attempt + 1) (some fb) = true := by
      simp [should_use_html_fallback, hfb, hmin]
    simp only [attemptLoop, hnet, hsb, if_true, download_html_fallback,
      html_fallback_path, Option.getD]
  · unfold downloadOne
    by_cases h1 : targetPathFn xmlUrl ∈ fs ∧ overwrite = false
    · simp [h1]
    · simp only [h1, if_false]
      by_cases h2 : fallbackTruthy (some fb) = true ∧
          html_fallback_path (targetPathFn xmlUrl) ∈ fs ∧ overwrite = false
      · simp [h2]
      · simp only [h2, if_false]
        exact (attemptLoop_wroteHtml_spec maxRetries net fetchHtml trim xmlUrl
          (some fb) (targetPathFn xmlUrl) maxRetries 0 fs none).1
  · unfold downloadOne at h
    by_cases h1 : targetPathFn xmlUrl ∈ fs ∧ overwrite = false
    · simp [h1] at h
    · simp only [h1, if_false] at h
      by_cases h2 : fallbackTruthy (some fb) = true ∧
          html_fallback_path (targetPathFn xmlUrl) ∈ fs ∧ overwrite = false
      · simp [h2] at h
      · simp only [h2, if_false] at h
        exact (attemptLoop_wroteHtml_spec maxRetries net fetchHtml trim xmlUrl
          (some fb) (targetPathFn xmlUrl) maxRetries 0 fs none).2 l p c r h

/-- C7 witness: three straight HTTP 500 failures with `max_retries = 5`
trigger exactly one fallback capture at attempt 3, returned as the
`.html` sibling. -/
theorem c7_witness :
    attemptLoop 5 (fun _ => AttemptResult.httpError 500) (fun _ => "<html>body</html>")
        (fun s => s) "https://lovdata.no/xml/t.xml" (some "https://lovdata.no/doc")
        { stem := "t", suffix := ".xml" } 2 3 [] none =
      (Except.ok (some { stem := "t", suffix := ".html" }),
       [{ stem := "t", suffix := ".html" }],
       [DlEv.xmlRequest "https://lovdata.no/xml/t.xml" 3,
        DlEv.fallbackFetch "https://lovdata.no/doc",
        DlEv.wroteHtml { stem := "t", suffix := ".html" } "<html>body</html>"]) := by
  have h := (c7_html_fallback 5 false (fun u => { stem := u, suffix := ".xml" })
    (fun _ => AttemptResult.httpError 500) (fun _ => "<html>body</html>") (fun s => s)
    "https://lovdata.no/xml/t.xml" "https://lovdata.no/doc"
    { stem := "t", suffix := ".xml" } (by decide)).1 2 2 [] none 500 rfl (by decide)
  simpa [withSuffix, addPath, removePath, tempPartPath] using h

/-! ### C1 / C2 — per-page resume index maintenance -/

/-- Helper: `recordSave` never changes anything but the save trace. -/
theorem recordSave_fields (useCheckpoint : Bool) (pageUrl : UrlModel) (st : LoopSt) :
    (recordSave useCheckpoint pageUrl st).contiguous = st.contiguous ∧
    (recordSave useCheckpoint pageUrl st).resumeIdx = st.resumeIdx ∧
    (recordSave useCheckpoint pageUrl st).totals = st.totals := by
  cases useCheckpoint <;> simp [recordSave]

/-- Helper: once the contiguous flag is down, the document loop neither
saves a checkpoint nor moves the resume index. -/
theorem docsLoop_noncontig (useCheckpoint : Bool) (pageUrl : UrlModel) (skipInPage : Nat) :
    ∀ outcomes idx st, st.contiguous = false →
      (docsLoop useCheckpoint pageUrl skipInPage idx outcomes st).1.contiguous = false ∧
      (docsLoop useCheckpoint pageUrl skipInPage idx outcomes st).1.saves = st.saves ∧
      (docsLoop useCheckpoint pageUrl skipInPage idx outcomes st).1.resumeIdx = st.resumeIdx := by
  intro outcomes
  induction outcomes with
  | nil =>
    intro idx st h
    simp [docsLoop, h]
  | cons o rest ih =>
    intro idx st h
    by_cases hskip : idx < skipInPage
    · simpa [docsLoop, hskip] using ih (idx + 1) st h
    · cases o with
      | fetchLinksError =>
        simpa [docsLoop, hskip, h] using ih (idx + 1) st h
      | noLinks =>
        simpa [docsLoop, hskip, h] using ih (idx + 1) st h
      | downloadError =>
        simp [docsLoop, hskip, h]
      | ok n =>
        have h2 := ih (idx + 1)
          { st with
            totals := { totalDocuments := st.totals.totalDocuments + 1
                        totalFiles := st.totals.totalFiles + n }
            resumeIdx := if st.contiguous then idx + 1 else st.resumeIdx } (by simp [h])
        simp only [h, Bool.false_eq_true, if_false] at h2
        simpa [docsLoop, hskip, h] using h2

/-- Helper: a gap-free run of successful or link-less documents keeps the
contiguous flag up and just advances the loop position. -/
theorem docsLoop_advance (useCheckpoint : Bool) (pageUrl : UrlModel) :
    ∀ pre rest idx st,
      (∀ o ∈ pre, (∃ n, o = DocOutcome.ok n) ∨ o = DocOutcome.noLinks) →
      st.contiguous = true →
      ∃ st2, docsLoop useCheckpoint pageUrl 0 idx (pre ++ rest) st =
          docsLoop useCheckpoint pageUrl 0 (idx + pre.length) rest st2 ∧
        st2.contiguous = true := by
  intro pre
  induction pre with
  | nil =>
    intro rest idx st _ hc
    exact ⟨st, by simp, hc⟩
  | cons o pre ih =>
    intro rest idx st h hc
    have hrest : ∀ x ∈ pre, (∃ n, x = DocOutcome.ok n) ∨ x = DocOutcome.noLinks :=
      fun x hx => h x (by simp [hx])
    have harith : idx + (o :: pre).length = (idx + 1) + pre.length := by
      simp; omega
    rcases h o (by simp) with ⟨n, rfl⟩ | rfl
    · have hstep : docsLoop useCheckpoint pageUrl 0 idx ((DocOutcome.ok n :: pre) ++ rest) st =
          docsLoop useCheckpoint pageUrl 0 (idx + 1) (pre ++ rest)
            (recordSave useCheckpoint pageUrl
              { st with
                totals := { totalDocuments := st.totals.totalDocuments + 1
                            totalFiles := st.totals.totalFiles + n }
                resumeIdx := idx + 1 }) := by
        simp [docsLoop, hc]
      obtain ⟨st3, heq, hc3⟩ := ih rest (idx + 1)
        (recordSave useCheckpoint pageUrl
          { st with
            totals := { totalDocuments := st.totals.totalDocuments + 1
                        totalFiles := st.totals.totalFiles + n }
            resumeIdx := idx + 1 })
        hrest (by simp [(recordSave_fields useCheckpoint pageUrl _).1, hc])
      exact ⟨st3, by rw [hstep, heq, harith], hc3⟩
    · have hstep : docsLoop useCheckpoint pageUrl 0 idx ((DocOutcome.noLinks :: pre) ++ rest) st =
          docsLoop useCheckpoint pageUrl 0 (idx + 1) (pre ++ rest)
            (recordSave useCheckpoint pageUrl { st with resumeIdx := idx + 1 }) := by
        simp [docsLoop, hc]
      obtain ⟨st3, heq, hc3⟩ := ih rest (idx + 1)
        (recordSave useCheckpoint pageUrl { st with resumeIdx := idx + 1 })
        hrest (by simp [(recordSave_fields useCheckpoint pageUrl _).1, hc])
      exact ⟨st3, by rw [hstep, heq, harith], hc3⟩

/-- Helper: the last element of a list extended by one element. -/
theorem getLast?_snoc {α : Type} (l : List α) (a : α) : (l ++ [a]).getLast? = some a := by
  rw [List.getLast?_append_cons]
  rfl

/-- C1: when the document at position `i` is the first failure within a
contiguous prefix of successful downloads and it is a download error,
`run` aborts the page and the checkpoint persisted last before the error
propagates points at the current page with resume index exactly `i`;
resuming with that index skips exactly `i` documents. -/
theorem c1_download_failure_freezes_checkpoint (pageUrl : UrlModel)
    (pageResumeUrl : Option UrlModel) (pre post : List DocOutcome) (totals : RunTotals)
    (hpre : ∀ o ∈ pre, ∃ n, o = DocOutcome.ok n) :
    (process_page true pageUrl pageResumeUrl 0 (pre ++ DocOutcome.downloadError :: post)
        totals).2 = true ∧
    ((process_page true pageUrl pageResumeUrl 0 (pre ++ DocOutcome.downloadError :: post)
        totals).1.saves.getLast?).map (fun c => (c.resumeUrl, c.resumeIndex)) =
      some (some pageUrl, pre.length) ∧
    compute_skip pre.length (pre ++ DocOutcome.downloadError :: post).length =
      (pre.length, pre.length) := by
  have hsk : ∀ k, compute_skip 0 k = (0, 0) := fun k => by simp [compute_skip]
  obtain ⟨st2, heq, hc2⟩ := docsLoop_advance true pageUrl pre
    (DocOutcome.downloadError :: post) 0
    { contiguous := true, resumeIdx := 0, totals := totals
      saves := [{ resumeUrl := some pageUrl, resumeIndex := 0
                  totalDocuments := totals.totalDocuments
                  totalFiles := totals.totalFiles }] }
    (fun o ho => Or.inl (hpre o ho)) rfl
  have hfail : docsLoop true pageUrl 0 (0 + pre.length) (DocOutcome.downloadError :: post) st2 =
      (recordSave true pageUrl { st2 with contiguous := false, resumeIdx := 0 + pre.length },
       true) := by
    simp [docsLoop, hc2]
  have hloop : docsLoop true pageUrl 0 0 (pre ++ DocOutcome.downloadError :: post)
      { contiguous := true, resumeIdx := 0, totals := totals
        saves := [{ resumeUrl := some pageUrl, resumeIndex := 0
                    totalDocuments := totals.totalDocuments
                    totalFiles := totals.totalFiles }] } =
      (recordSave true pageUrl { st2 with contiguous := false, resumeIdx := 0 + pre.length },
       true) := by
    rw [heq, hfail]
  refine ⟨?_, ?_, ?_⟩
  · simp [process_page, hsk, hloop, recordSave]
  · simp [process_page, hsk, hloop, recordSave, getLast?_snoc]
  · rcases Nat.eq_zero_or_pos pre.length with hz | hp
    · simp [compute_skip, hz]
    · have hle : pre.length ≤ (pre ++ DocOutcome.downloadError :: post).length := by
        simp
      simp only [compute_skip]
      rw [if_pos ⟨by omega, by simp⟩]
      simp [Nat.min_eq_left hle]

/-- C1 witness: a concrete two-document page whose second document fails
to download. -/
theorem c1_witness :
    (process_page true sampleListUrl none 0 [DocOutcome.ok 2, DocOutcome.downloadError]
        { totalDocuments := 0, totalFiles := 0 }).2 = true ∧
    ((process_page true sampleListUrl none 0 [DocOutcome.ok 2, DocOutcome.downloadError]
        { totalDocuments := 0, totalFiles := 0 }).1.saves.getLast?).map
      (fun c => (c.resumeUrl, c.resumeIndex)) = some (some sampleListUrl, 1) ∧
    compute_skip 1 2 = (1, 1) := by
  have h := c1_download_failure_freezes_checkpoint sampleListUrl none [DocOutcome.ok 2] []
    { totalDocuments := 0, totalFiles := 0 } (by intro o ho; simp at ho; exact ⟨2, ho⟩)
  simpa using h

/-- C2 counterexample: on a page whose first document has no file link
and whose second downloads fine, the loop does not freeze the resume
index at position 0 nor clear the contiguous flag: the flag stays up and
a checkpoint with resume index 2 (past both documents) is persisted. -/
theorem c2_counterexample :
    (process_page true sampleListUrl (some (sampleOffsetUrl 20)) 0
        [DocOutcome.noLinks, DocOutcome.ok 1]
        { totalDocuments := 0, totalFiles := 0 }).1.contiguous = true ∧
    ({ resumeUrl := some sampleListUrl, resumeIndex := 2, totalDocuments := 1,
       totalFiles := 1 } : CkptSave) ∈
      (process_page true sampleListUrl (some (sampleOffsetUrl 20)) 0
        [DocOutcome.noLinks, DocOutcome.ok 1]
        { totalDocuments := 0, totalFiles := 0 }).1.saves := by
  constructor
  · rfl
  · decide

/-- C2 (amended): the first *blocking* failure — a link-fetch error or a
download error — at position `i` after a gap-free prefix of successes
and link-less documents clears the contiguous flag and freezes the
persisted resume index: the last checkpoint of the page points at the
current page with resume index `i`, and later documents never advance
it.  (A document with no file link is not blocking: it advances the
resume index past itself while the prefix stays contiguous.) -/
theorem c2_first_blocking_failure_freezes (pageUrl : UrlModel)
    (pageResumeUrl : Option UrlModel) (pre post : List DocOutcome) (f : DocOutcome)
    (totals : RunTotals)
    (hpre : ∀ o ∈ pre, (∃ n, o = DocOutcome.ok n) ∨ o = DocOutcome.noLinks)
    (hf : f = DocOutcome.fetchLinksError ∨ f = DocOutcome.downloadError) :
    (process_page true pageUrl pageResumeUrl 0 (pre ++ f :: post) totals).1.contiguous =
      false ∧
    ((process_page true pageUrl pageResumeUrl 0 (pre ++ f :: post)
        totals).1.saves.getLast?).map (fun c => (c.resumeUrl, c.resumeIndex)) =
      some (some pageUrl, pre.length) := by
  have hsk : ∀ k, compute_skip 0 k = (0, 0) := fun k => by simp [compute_skip]
  obtain ⟨st2, heq, hc2⟩ := docsLoop_advance true pageUrl pre (f :: post) 0
    { contiguous := true, resumeIdx := 0, totals := totals
      saves := [{ resumeUrl := some pageUrl, resumeIndex := 0
                  totalDocuments := totals.totalDocuments
                  totalFiles := totals.totalFiles }] }
    hpre rfl
  rcases hf with rfl | rfl
  · have hfail : docsLoop true pageUrl 0 (0 + pre.length)
        (DocOutcome.fetchLinksError :: post) st2 =
        docsLoop true pageUrl 0 (0 + pre.length + 1) post
          (recordSave true pageUrl
            { st2 with contiguous := false, resumeIdx := 0 + pre.length }) := by
      simp [docsLoop, hc2]
    have hstfc : (recordSave true pageUrl
        { st2 with contiguous := false, resumeIdx := 0 + pre.length }).contiguous = false :=
      (recordSave_fields true pageUrl _).1
    have hstfr : (recordSave true pageUrl
        { st2 with contiguous := false, resumeIdx := 0 + pre.length }).resumeIdx =
        0 + pre.length :=
      (recordSave_fields true pageUrl _).2.1
    have hstfs : (recordSave true pageUrl
        { st2 with contiguous := false, resumeIdx := 0 + pre.length }).saves =
        st2.saves ++
          [{ resumeUrl := some pageUrl, resumeIndex := 0 + pre.length
             totalDocuments := st2.totals.totalDocuments
             totalFiles := st2.totals.totalFiles }] := by
      simp [recordSave]
    rcases hab : docsLoop true pageUrl 0 (0 + pre.length + 1) post
        (recordSave true pageUrl
          { st2 with contiguous := false, resumeIdx := 0 + pre.length }) with ⟨stz, b⟩
    have hnc := docsLoop_noncontig true pageUrl 0 post (0 + pre.length + 1)
      (recordSave true pageUrl
        { st2 with contiguous := false, resumeIdx := 0 + pre.length }) hstfc
    rw [hab] at hnc
    have hzc : stz.contiguous = false := hnc.1
    have hzs : stz.saves.getLast? =
        some { resumeUrl := some pageUrl, resumeIndex := 0 + pre.length
               totalDocuments := st2.totals.totalDocuments
               totalFiles := st2.totals.totalFiles } := by
      rw [hnc.2.1, hstfs]
      exact getLast?_snoc _ _
    have hzr : stz.resumeIdx = 0 + pre.length := by rw [hnc.2.2, hstfr]
    have hloop : docsLoop true pageUrl 0 0 (pre ++ DocOutcome.fetchLinksError :: post)
        { contiguous := true, resumeIdx := 0, totals := totals
          saves := [{ resumeUrl := some pageUrl, resumeIndex := 0
                      totalDocuments := totals.totalDocuments
                      totalFiles := totals.totalFiles }] } =
        (stz, b) := by
      rw [heq, hfail, hab]
    cases b
    · constructor
      · simp [process_page, hsk, hloop, hzc, recordSave]
      · have hrs : (recordSave true pageUrl stz).saves =
            stz.saves ++ [{ resumeUrl := some pageUrl, resumeIndex := stz.resumeIdx
                            totalDocuments := stz.totals.totalDocuments
                            totalFiles := stz.totals.totalFiles }] := by
          simp [recordSave]
        simp [process_page, hsk, hloop, hzc, hrs, getLast?_snoc, hzr, recordSave]
    · constructor
      · simp [process_page, hsk, hloop, hzc, recordSave]
      · simp [process_page, hsk, hloop, hzs, recordSave]
  · have hfail : docsLoop true pageUrl 0 (0 + pre.length)
        (DocOutcome.downloadError :: post) st2 =
        (recordSave true pageUrl
          { st2 with contiguous := false, resumeIdx := 0 + pre.length }, true) := by
      simp [docsLoop, hc2]
    have hloop : docsLoop true pageUrl 0 0 (pre ++ DocOutcome.downloadError :: post)
        { contiguous := true, resumeIdx := 0, totals := totals
          saves := [{ resumeUrl := some pageUrl, resumeIndex := 0
                      totalDocuments := totals.totalDocuments
                      totalFiles := totals.totalFiles }] } =
        (recordSave true pageUrl
          { st2 with contiguous := false, resumeIdx := 0 + pre.length }, true) := by
      rw [heq, hfail]
    constructor
    · simp [process_page, hsk, hloop, recordSave]
    · simp [process_page, hsk, hloop, recordSave, getLast?_snoc]

/-- C2 witness: a success, then a link-fetch failure at position 1, then
one more (attempted) document: the final checkpoint stays at index 1 and
the flag is down. -/
theorem c2_witness :
    (process_page true sampleListUrl none 0
        [DocOutcome.ok 1, DocOutcome.fetchLinksError, DocOutcome.ok 3]
        { totalDocuments := 0, totalFiles := 0 }).1.contiguous = false ∧
    ((process_page true sampleListUrl none 0
        [DocOutcome.ok 1, DocOutcome.fetchLinksError, DocOutcome.ok 3]
        { totalDocuments := 0, totalFiles := 0 }).1.saves.getLast?).map
      (fun c => (c.resumeUrl, c.resumeIndex)) = some (some sampleListUrl, 1) := by
  have h := c2_first_blocking_failure_freezes sampleListUrl none [DocOutcome.ok 1]
    [DocOutcome.ok 3] DocOutcome.fetchLinksError { totalDocuments := 0, totalFiles := 0 }
    (by intro o ho; simp at ho; exact Or.inl ⟨1, ho⟩) (Or.inl rfl)
  simpa using h

/-! ### C9 — idempotence of `download_xml` without overwrite -/

/-- Helper: membership facts for the file-system set operations. -/
theorem mem_addPath_self (fs : List Pathm) (p : Pathm) : p ∈ addPath fs p := by
  by_cases h : p ∈ fs <;> simp [addPath, h]

theorem mem_addPath_of_mem (fs : List Pathm) (p q : Pathm) (h : q ∈ fs) :
    q ∈ addPath fs p := by
  by_cases hp : p ∈ fs <;> simp [addPath, hp, h]

theorem mem_removePath_of_mem (fs : List Pathm) (p q : Pathm) (h : q ∈ fs) (hne : q ≠ p) :
    q ∈ removePath fs p := by
  simp [removePath, List.mem_filter, h, hne]

/-- Helper: a truthy fallback URL is forced by a positive
`_should_use_html_fallback` answer. -/
theorem should_use_truthy (maxRetries attempt : Nat) (fbu : Option String)
    (h : should_use_html_fallback maxRetries attempt fbu = true) :
    fallbackTruthy fbu = true := by
  cases fbu with
  | none => simp [should_use_html_fallback] at h
  | some u =>
    by_cases hu : u = ""
    · simp [should_use_html_fallback, hu] at h
    · simp [fallbackTruthy, hu]

/-- Helper: the retry loop returns `ok none` (silent fall-through) only
when entered with no fuel and no recorded error. -/
theorem attemptLoop_ok_none (maxRetries : Nat) (net : Nat → AttemptResult)
    (fetchHtml trim : String → String) (xmlUrl : String) (fbu : Option String)
    (destination : Pathm) :
    ∀ fuel attempt fs lastErr,
      (attemptLoop maxRetries net fetchHtml trim xmlUrl fbu destination
        attempt fuel fs lastErr).1 = Except.ok none →
      lastErr = none ∧ fuel = 0 := by
  intro fuel
  induction fuel with
  | zero =>
    intro attempt fs lastErr h
    cases lastErr with
    | none => exact ⟨rfl, rfl⟩
    | some e => simp [attemptLoop] at h
  | succ fuel ih =>
    intro attempt fs lastErr h
    cases hnet : net (attempt + 1) with
    | success => simp [attemptLoop, hnet] at h
    | httpError status =>
      by_cases hsb : should_use_html_fallback maxRetries (attempt + 1) fbu = true
      · simp [attemptLoop, hnet, hsb, download_html_fallback] at h
      · by_cases hr : should_retry status (attempt + 1) maxRetries = true
        · have h2 : (attemptLoop maxRetries net fetchHtml trim xmlUrl fbu destination
              (attempt + 1) fuel (removePath fs (tempPartPath destination))
              (some (DlErr.httpError status))).1 = Except.ok none := by
            simpa [attemptLoop, hnet, hsb, hr] using h
          exact absurd (ih (attempt + 1) _ _ h2).1 (by simp)
        · simp [attemptLoop, hnet, hsb, hr] at h
    | requestError =>
      by_cases hsb : should_use_html_fallback maxRetries (attempt + 1) fbu = true
      · simp [attemptLoop, hnet, hsb, download_html_fallback] at h
      · by_cases hx : maxRetries ≤ attempt + 1
        · simp [attemptLoop, hnet, hsb, hx] at h
        · have h2 : (attemptLoop maxRetries net fetchHtml trim xmlUrl fbu destination
              (attempt + 1) fuel (removePath fs (tempPartPath destination))
              (some DlErr.requestError)).1 = Except.ok none := by
            simpa [attemptLoop, hnet, hsb, hx] using h
          exact absurd (ih (attempt + 1) _ _ h2).1 (by simp)

/-- Helper: on success the retry loop saved either the destination or —
only with a truthy fallback URL — the `.html` sibling, and the saved
path exists afterwards. -/
theorem attemptLoop_saved (maxRetries : Nat) (net : Nat → AttemptResult)
    (fetchHtml trim : String → String) (xmlUrl : String) (fbu : Option String)
    (destination : Pathm) :
    ∀ fuel attempt fs lastErr p,
      (attemptLoop maxRetries net fetchHtml trim xmlUrl fbu destination
        attempt fuel fs lastErr).1 = Except.ok (some p) →
      p ∈ (attemptLoop maxRetries net fetchHtml trim xmlUrl fbu destination
        attempt fuel fs lastErr).2.1 ∧
      (p = destination ∨
        (p = html_fallback_path destination ∧ fallbackTruthy fbu = true)) := by
  intro fuel
  induction fuel with
  | zero =>
    intro attempt fs lastErr p h
    cases lastErr <;> simp [attemptLoop] at h
  | succ fuel ih =>
    intro attempt fs lastErr p h
    cases hnet : net (attempt + 1) with
    | success =>
      have hp : p = destination := by
        have := h
        simp [attemptLoop, hnet] at this
        exact this.symm
      subst hp
      refine ⟨?_, Or.inl rfl⟩
      simp [attemptLoop, hnet, mem_addPath_self]
    | httpError status =>
      by_cases hsb : should_use_html_fallback maxRetries (attempt + 1) fbu = true
      · have hp : p = html_fallback_path destination := by
          have := h
          simp [attemptLoop, hnet, hsb, download_html_fallback] at this
          exact this.symm
        subst hp
        refine ⟨?_, Or.inr ⟨rfl, should_use_truthy _ _ _ hsb⟩⟩
        simp [attemptLoop, hnet, hsb, download_html_fallback, mem_addPath_self]
      · by_cases hr : should_retry status (attempt + 1) maxRetries = true
        · have h2 : (attemptLoop maxRetries net fetchHtml trim xmlUrl fbu destination
              (attempt + 1) fuel (removePath fs (tempPartPath destination))
              (some (DlErr.httpError status))).1 = Except.ok (some p) := by
            simpa [attemptLoop, hnet, hsb, hr] using h
          have hrec := ih (attempt + 1) _ _ p h2
          refine ⟨?_, hrec.2⟩
          simpa [attemptLoop, hnet, hsb, hr] using hrec.1
        · simp [attemptLoop, hnet, hsb, hr] at h
    | requestError =>
      by_cases hsb : should_use_html_fallback maxRetries (attempt + 1) fbu = true
      · have hp : p = html_fallback_path destination := by
          have := h
          simp [attemptLoop, hnet, hsb, download_html_fallback] at this
          exact this.symm
        subst hp
        refine ⟨?_, Or.inr ⟨rfl, should_use_truthy _ _ _ hsb⟩⟩
        simp [attemptLoop, hnet, hsb, download_html_fallback, mem_addPath_self]
      · by_cases hx : maxRetries ≤ attempt + 1
        · simp [attemptLoop, hnet, hsb, hx] at h
        · have h2 : (attemptLoop maxRetries net fetchHtml trim xmlUrl fbu destination
              (attempt + 1) fuel (removePath fs (tempPartPath destination))
              (some DlErr.requestError)).1 = Except.ok (some p) := by
            simpa [attemptLoop, hnet, hsb, hx] using h
          have hrec := ih (attempt + 1) _ _ p h2
          refine ⟨?_, hrec.2⟩
          simpa [attemptLoop, hnet, hsb, hx] using hrec.1

/-- Helper: the retry loop only ever unlinks the `.part` temporary, so
any file with a different suffix survives it. -/
theorem attemptLoop_preserves (maxRetries : Nat) (net : Nat → AttemptResult)
    (fetchHtml trim : String → String) (xmlUrl : String) (fbu : Option String)
    (destination : Pathm) :
    ∀ fuel attempt fs lastErr q, q ∈ fs →
      q.suffix ≠ destination.suffix ++ ".part" →
      q ∈ (attemptLoop maxRetries net fetchHtml trim xmlUrl fbu destination
        attempt fuel fs lastErr).2.1 := by
  intro fuel
  induction fuel with
  | zero =>
    intro attempt fs lastErr q hq _
    simpa [attemptLoop] using hq
  | succ fuel ih =>
    intro attempt fs lastErr q hq hsuf
    have hqt : q ≠ tempPartPath destination := by
      intro hcontra
      exact hsuf (by rw [hcontra]; rfl)
    cases hnet : net (attempt + 1) with
    | success =>
      simp only [attemptLoop, hnet]
      exact mem_addPath_of_mem _ _ _
        (mem_removePath_of_mem _ _ _ (mem_addPath_of_mem _ _ _ hq) hqt)
    | httpError status =>
      by_cases hsb : should_use_html_fallback maxRetries (attempt + 1) fbu = true
      · simp only [attemptLoop, hnet, hsb, if_true, download_html_fallback]
        exact mem_addPath_of_mem _ _ _ (mem_removePath_of_mem _ _ _ hq hqt)
      · by_cases hr : should_retry status (attempt + 1) maxRetries = true
        · have hrec := ih (attempt + 1) (removePath fs (tempPartPath destination))
            (some (DlErr.httpError status)) q
            (mem_removePath_of_mem _ _ _ hq hqt) hsuf
          simpa [attemptLoop, hnet, hsb, hr] using hrec
        · simpa [attemptLoop, hnet, hsb, hr] using
            mem_removePath_of_mem _ _ _ hq hqt
    | requestError =>
      by_cases hsb : should_use_html_fallback maxRetries (attempt + 1) fbu = true
      · simp only [attemptLoop, hnet, hsb, if_true, download_html_fallback]
        exact mem_addPath_of_mem _ _ _ (mem_removePath_of_mem _ _ _ hq hqt)
      · by_cases hx : maxRetries ≤ attempt + 1
        · simpa [attemptLoop, hnet, hsb, hx] using
            mem_removePath_of_mem _ _ _ hq hqt
        · have hrec := ih (attempt + 1) (removePath fs (tempPartPath destination))
            (some DlErr.requestError) q
            (mem_removePath_of_mem _ _ _ hq hqt) hsuf
          simpa [attemptLoop, hnet, hsb, hx] using hrec

/-- Helper: a file whose destination already exists is skipped with no
events and no state change. -/
theorem downloadOne_skip (maxRetries : Nat) (targetPathFn : String → Pathm)
    (net : Nat → AttemptResult) (fetchHtml trim : String → String)
    (xmlUrl : String) (fbu : Option String) (fs : List Pathm)
    (hmem : targetPathFn xmlUrl ∈ fs) :
    downloadOne maxRetries false targetPathFn net fetchHtml trim xmlUrl fbu fs =
      (Except.ok (some (targetPathFn xmlUrl)), fs, []) := by
  simp [downloadOne, hmem]

/-- Helper: with a truthy fallback and the `.html` sibling on disk (and
the destination absent), the file is likewise skipped. -/
theorem downloadOne_skip_html (maxRetries : Nat) (targetPathFn : String → Pathm)
    (net : Nat → AttemptResult) (fetchHtml trim : String → String)
    (xmlUrl : String) (fbu : Option String) (fs : List Pathm)
    (hnm : targetPathFn xmlUrl ∉ fs) (hfb : fallbackTruthy fbu = true)
    (hmem : html_fallback_path (targetPathFn xmlUrl) ∈ fs) :
    downloadOne maxRetries false targetPathFn net fetchHtml trim xmlUrl fbu fs =
      (Except.ok (some (html_fallback_path (targetPathFn xmlUrl))), fs, []) := by
  simp [downloadOne, hnm, hfb, hmem]

/-- Helper: a successful per-file step leaves either the destination or
the fallback sibling on disk, and the path it returns is on disk. -/
theorem downloadOne_saved (maxRetries : Nat) (targetPathFn : String → Pathm)
    (net : Nat → AttemptResult) (fetchHtml trim : String → String)
    (xmlUrl : String) (fbu : Option String) (fs : List Pathm)
    (saved : Option Pathm) (hmr : 1 ≤ maxRetries)
    (h : (downloadOne maxRetries false targetPathFn net fetchHtml trim xmlUrl fbu fs).1 =
      Except.ok saved) :
    ∃ p, saved = some p ∧
      p ∈ (downloadOne maxRetries false targetPathFn net fetchHtml trim xmlUrl fbu fs).2.1 ∧
      (p = targetPathFn xmlUrl ∨
        (p = html_fallback_path (targetPathFn xmlUrl) ∧ fallbackTruthy fbu = true)) := by
  by_cases h1 : targetPathFn xmlUrl ∈ fs
  · rw [downloadOne_skip maxRetries targetPathFn net fetchHtml trim xmlUrl fbu fs h1] at h ⊢
    simp at h
    exact ⟨targetPathFn xmlUrl, h.symm, by simpa using h1, Or.inl rfl⟩
  · by_cases h2 : fallbackTruthy fbu = true ∧
        html_fallback_path (targetPathFn xmlUrl) ∈ fs
    · rw [downloadOne_skip_html maxRetries targetPathFn net fetchHtml trim xmlUrl fbu fs
        h1 h2.1 h2.2] at h ⊢
      simp at h
      exact ⟨html_fallback_path (targetPathFn xmlUrl), h.symm, by simpa using h2.2,
        Or.inr ⟨rfl, h2.1⟩⟩
    · have hun : downloadOne maxRetries false targetPathFn net fetchHtml trim xmlUrl fbu fs =
          attemptLoop maxRetries net fetchHtml trim xmlUrl fbu (targetPathFn xmlUrl)
            0 maxRetries fs none := by
        simp only [downloadOne]
        rw [if_neg (by simp [h1]), if_neg (by simpa using h2)]
      rw [hun] at h ⊢
      cases saved with
      | none =>
        have := (attemptLoop_ok_none maxRetries net fetchHtml trim xmlUrl fbu
          (targetPathFn xmlUrl) maxRetries 0 fs none h).2
        omega
      | some p =>
        have := attemptLoop_saved maxRetries net fetchHtml trim xmlUrl fbu
          (targetPathFn xmlUrl) maxRetries 0 fs none p h
        exact ⟨p, rfl, this.1, this.2⟩

/-- Helper: the per-file step never destroys a file whose suffix differs
from the file's `.part` temporary. -/
theorem downloadOne_preserves (maxRetries : Nat) (overwrite : Bool)
    (targetPathFn : String → Pathm) (net : Nat → AttemptResult)
    (fetchHtml trim : String → String) (xmlUrl : String) (fbu : Option String)
    (fs : List Pathm) (q : Pathm) (hq : q ∈ fs)
    (hsuf : q.suffix ≠ (targetPathFn xmlUrl).suffix ++ ".part") :
    q ∈ (downloadOne maxRetries overwrite targetPathFn net fetchHtml trim
      xmlUrl fbu fs).2.1 := by
  by_cases h1 : targetPathFn xmlUrl ∈ fs ∧ overwrite = false
  · simpa [downloadOne, h1] using hq
  · by_cases h2 : fallbackTruthy fbu = true ∧
        html_fallback_path (targetPathFn xmlUrl) ∈ fs ∧ overwrite = false
    · simp only [downloadOne]
      rw [if_neg h1, if_pos h2]
      simpa using hq
    · simp only [downloadOne]
      rw [if_neg h1, if_neg h2]
      exact attemptLoop_preserves maxRetries net fetchHtml trim xmlUrl fbu
        (targetPathFn xmlUrl) maxRetries 0 fs none q hq hsuf

/-- Helper: `download_xml` over a list preserves any file whose suffix
is not a `.part` temporary of one of the targets. -/
theorem download_xml_preserves (maxRetries : Nat) (overwrite : Bool)
    (targetPathFn : String → Pathm) (net : Nat → Nat → AttemptResult)
    (fetchHtml trim : String → String) (fbu : Option String) :
    ∀ (urls : List String) (i : Nat) (fs : List Pathm) (q : Pathm), q ∈ fs →
      (∀ u ∈ urls, q.suffix ≠ (targetPathFn u).suffix ++ ".part") →
      q ∈ (download_xml maxRetries overwrite targetPathFn net fetchHtml trim fbu
        urls i fs).2.1 := by
  intro urls
  induction urls with
  | nil =>
    intro i fs q hq _
    simpa [download_xml] using hq
  | cons u rest ih =>
    intro i fs q hq hsuf
    have hq1 := downloadOne_preserves maxRetries overwrite targetPathFn (net i)
      fetchHtml trim u fbu fs q hq (hsuf u (by simp))
    rcases hone : downloadOne maxRetries overwrite targetPathFn (net i) fetchHtml trim
        u fbu fs with ⟨r1, fs1, evs1⟩
    rw [hone] at hq1
    simp only at hq1
    cases r1 with
    | error e =>
      simp [download_xml, hone]
      exact hq1
    | ok saved =>
      have hq2 := ih (i + 1) fs1 q hq1 (fun v hv => hsuf v (by simp [hv]))
      rcases hrest : download_xml maxRetries overwrite targetPathFn net fetchHtml trim fbu
          rest (i + 1) fs1 with ⟨r2, fs2, evs2⟩
      rw [hrest] at hq2
      simp only at hq2
      cases r2 with
      | error e => simp [download_xml, hone, hrest]; exact hq2
      | ok paths => simp [download_xml, hone, hrest]; exact hq2

/-- Helper: after a fully successful `download_xml`, every target has its
destination (or, with a truthy fallback, its `.html` sibling) on disk. -/
theorem download_xml_ok_each (maxRetries : Nat) (targetPathFn : String → Pathm)
    (net : Nat → Nat → AttemptResult) (fetchHtml trim : String → String)
    (fbu : Option String) (hmr : 1 ≤ maxRetries) :
    ∀ (urls : List String) (i : Nat) (fs : List Pathm) (paths fs2 : List Pathm)
      (evs : List DlEv),
      (∀ u ∈ urls, (targetPathFn u).suffix = ".xml") →
      download_xml maxRetries false targetPathFn net fetchHtml trim fbu urls i fs =
        (Except.ok paths, fs2, evs) →
      ∀ u ∈ urls, targetPathFn u ∈ fs2 ∨
        (fallbackTruthy fbu = true ∧ html_fallback_path (targetPathFn u) ∈ fs2) := by
  intro urls
  induction urls with
  | nil =>
    intro i fs paths fs2 evs _ _ u hu
    simp at hu
  | cons v rest ih =>
    intro i fs paths fs2 evs hsufx hrun u hu
    rcases hone : downloadOne maxRetries false targetPathFn (net i) fetchHtml trim
        v fbu fs with ⟨r1, fs1, evs1⟩
    cases r1 with
    | error e =>
      rw [download_xml] at hrun
      simp [hone] at hrun
    | ok saved =>
      rcases hrest : download_xml maxRetries false targetPathFn net fetchHtml trim fbu
          rest (i + 1) fs1 with ⟨r2, fs2x, evs2⟩
      cases r2 with
      | error e =>
        rw [download_xml] at hrun
        simp [hone, hrest] at hrun
      | ok paths2 =>
        rw [download_xml] at hrun
        simp only [hone, hrest, Prod.mk.injEq, Except.ok.injEq] at hrun
        obtain ⟨hpaths, hfs, hevs⟩ := hrun
        subst hfs
        rcases List.mem_cons.mp hu with rfl | hu2
        · obtain ⟨p, hps, hpmem, hpkind⟩ := downloadOne_saved maxRetries targetPathFn
            (net i) fetchHtml trim u fbu fs saved hmr (by rw [hone])
          rw [hone] at hpmem
          simp only at hpmem
          have hsufp : ∀ w ∈ rest, p.suffix ≠ (targetPathFn w).suffix ++ ".part" := by
            intro w hw
            rw [hsufx w (by simp [hw])]
            rcases hpkind with rfl | ⟨rfl, hdum⟩
            · rw [hsufx u (by simp)]
              decide
            · show (html_fallback_path (targetPathFn u)).suffix ≠ ".xml" ++ ".part"
              simp only [html_fallback_path, withSuffix]
              decide
          have hfinal := download_xml_preserves maxRetries false targetPathFn net
            fetchHtml trim fbu rest (i + 1) fs1 p hpmem hsufp
          rw [hrest] at hfinal
          simp only at hfinal
          rcases hpkind with rfl | ⟨rfl, htr⟩
          · exact Or.inl hfinal
          · exact Or.inr ⟨htr, hfinal⟩
        · exact ih (i + 1) fs1 paths2 fs2x evs2
            (fun w hw => hsufx w (by simp [hw])) hrest u hu2

/-- Helper: when every target is already satisfied on disk and overwrite
is off, `download_xml` touches nothing: no events, unchanged state, and
every returned path already exists. -/
theorem download_xml_all_skip (maxRetries : Nat) (targetPathFn : String → Pathm)
    (net : Nat → Nat → AttemptResult) (fetchHtml trim : String → String)
    (fbu : Option String) :
    ∀ (urls : List String) (i : Nat) (fs : List Pathm),
      (∀ u ∈ urls, targetPathFn u ∈ fs ∨
        (fallbackTruthy fbu = true ∧ html_fallback_path (targetPathFn u) ∈ fs)) →
      ∃ paths2,
        download_xml maxRetries false targetPathFn net fetchHtml trim fbu urls i fs =
          (Except.ok paths2, fs, []) ∧ ∀ p ∈ paths2, p ∈ fs := by
  intro urls
  induction urls with
  | nil =>
    intro i fs _
    exact ⟨[], by simp [download_xml], by simp⟩
  | cons u rest ih =>
    intro i fs hall
    obtain ⟨paths2, hrest, hmem⟩ := ih (i + 1) fs
      (fun v hv => hall v (by simp [hv]))
    by_cases h1 : targetPathFn u ∈ fs
    · refine ⟨targetPathFn u :: paths2, ?_, ?_⟩
      · rw [download_xml]
        simp only [downloadOne_skip maxRetries targetPathFn (net i) fetchHtml trim
          u fbu fs h1, hrest]
        simp
      · intro p hp
        rcases List.mem_cons.mp hp with rfl | hp2
        · exact h1
        · exact hmem p hp2
    · have h2 := hall u (by simp)
      rcases h2 with h2 | ⟨htr, hhtml⟩
      · exact absurd h2 h1
      · refine ⟨html_fallback_path (targetPathFn u) :: paths2, ?_, ?_⟩
        · rw [download_xml]
          simp only [downloadOne_skip_html maxRetries targetPathFn (net i)
            fetchHtml trim u fbu fs h1 htr hhtml, hrest]
          simp
        · intro p hp
          rcases List.mem_cons.mp hp with rfl | hp2
          · exact hhtml
          · exact hmem p hp2

/-- C9: `download_xml` is idempotent without overwrite — after a fully
successful first call, a second call on the same URL list (regardless of
what the network would answer) produces no events at all (in particular
zero network requests), leaves the file system unchanged, and returns
only already-existing paths, because every target is skipped as already
present. -/
theorem c9_download_idempotent (maxRetries : Nat) (targetPathFn : String → Pathm)
    (net net2 : Nat → Nat → AttemptResult)
    (fetchHtml fetchHtml2 trim trim2 : String → String) (fbu : Option String)
    (urls : List String) (fs0 fs1 paths : List Pathm) (evs1 : List DlEv)
    (hmr : 1 ≤ maxRetries)
    (hsufx : ∀ u ∈ urls, (targetPathFn u).suffix = ".xml")
    (hfirst : download_xml maxRetries false targetPathFn net fetchHtml trim fbu
      urls 0 fs0 = (Except.ok paths, fs1, evs1)) :
    ∃ paths2,
      download_xml maxRetries false targetPathFn net2 fetchHtml2 trim2 fbu urls 0 fs1 =
        (Except.ok paths2, fs1, []) ∧ ∀ p ∈ paths2, p ∈ fs1 :=
  download_xml_all_skip maxRetries targetPathFn net2 fetchHtml2 trim2 fbu urls 0 fs1
    (download_xml_ok_each maxRetries targetPathFn net fetchHtml trim fbu hmr
      urls 0 fs0 paths fs1 evs1 hsufx hfirst)

/-- C9 witness: one URL downloaded successfully, then re-requested — the
second call is a pure skip. -/
theorem c9_witness :
    ∃ paths2,
      download_xml 1 false (fun u => { stem := u, suffix := ".xml" })
          (fun _ _ => AttemptResult.httpError 500) (fun _ => "") (fun s => s) none
          ["a"] 0 [{ stem := "a", suffix := ".xml" }] =
        (Except.ok paths2, [{ stem := "a", suffix := ".xml" }], []) ∧
      ∀ p ∈ paths2, p ∈ [({ stem := "a", suffix := ".xml" } : Pathm)] := by
  refine c9_download_idempotent 1 (fun u => { stem := u, suffix := ".xml" })
    (fun _ _ => AttemptResult.success) (fun _ _ => AttemptResult.httpError 500)
    (fun _ => "") (fun _ => "") (fun s => s) (fun s => s) none ["a"] []
    [{ stem := "a", suffix := ".xml" }] [{ stem := "a", suffix := ".xml" }]
    [DlEv.xmlRequest "a" 1,
     DlEv.wroteTemp (tempPartPath { stem := "a", suffix := ".xml" }),
     DlEv.renamed (tempPartPath { stem := "a", suffix := ".xml" })
       { stem := "a", suffix := ".xml" }]
    (by omega) (by intro u hu; rfl) (by rfl)

/-! ### C5 — no locator or offset accepted twice -/

/-- Helper: a page yielded by the loop body carries the current locator,
and continuing does not touch the loop-detection sets. -/
theorem iterStepBody_yieldStop (site : UrlModel → Bool → Except String RawListing)
    (maxPages limit : Option Nat) (currentUrl : UrlModel) (offsetValue : Option Int)
    (st : WalkSt) (p : PageOut)
    (h : iterStepBody site maxPages limit currentUrl offsetValue st = StepRes.yieldStop p) :
    p.currentUrl = currentUrl := by
  simp only [iterStepBody] at h
  repeat' split at h
  all_goals cases h
  all_goals rfl

/-- Helper: a continuing step yields the current locator and leaves the
visited/offset sets unchanged in the carried state. -/
theorem iterStepBody_yieldCont (site : UrlModel → Bool → Except String RawListing)
    (maxPages limit : Option Nat) (currentUrl : UrlModel) (offsetValue : Option Int)
    (st : WalkSt) (p : PageOut) (nxt : UrlModel) (st2 : WalkSt)
    (h : iterStepBody site maxPages limit currentUrl offsetValue st =
      StepRes.yieldCont p nxt st2) :
    p.currentUrl = currentUrl ∧ st2.visited = st.visited ∧
      st2.seenOffsets = st.seenOffsets := by
  simp only [iterStepBody] at h
  repeat' split at h
  all_goals cases h
  all_goals exact ⟨rfl, rfl, rfl⟩

/-- Helper: `iterStep` only yields pages at fresh locators and fresh
offsets, and a continuing step records them. -/
theorem iterStep_fresh (site : UrlModel → Bool → Except String RawListing)
    (maxPages limit : Option Nat) (cur : UrlModel) (st : WalkSt) :
    (∀ p, iterStep site maxPages limit cur st = StepRes.yieldStop p →
      p.currentUrl = cur ∧ cur ∉ st.visited ∧
        (∀ o, extract_offset cur = some o → o ∉ st.seenOffsets)) ∧
    (∀ p nxt st2, iterStep site maxPages limit cur st = StepRes.yieldCont p nxt st2 →
      p.currentUrl = cur ∧ cur ∉ st.visited ∧
        (∀ o, extract_offset cur = some o → o ∉ st.seenOffsets) ∧
        st2.visited = cur :: st.visited ∧
        st2.seenOffsets = (match extract_offset cur with
          | some o => o :: st.seenOffsets
          | none => st.seenOffsets)) := by
  by_cases hv : cur ∈ st.visited
  · constructor
    · intro p h
      simp [iterStep, hv] at h
    · intro p nxt st2 h
      simp [iterStep, hv] at h
  · cases ho : extract_offset cur with
    | none =>
      have hred : iterStep site maxPages limit cur st =
          iterStepBody site maxPages limit cur none
            { st with visited := cur :: st.visited } := by
        simp [iterStep, hv, ho]
      constructor
      · intro p h
        rw [hred] at h
        exact ⟨iterStepBody_yieldStop _ _ _ _ _ _ _ h, hv, fun o hoo => by simp [ho] at hoo⟩
      · intro p nxt st2 h
        rw [hred] at h
        obtain ⟨hp, hvis, hseen⟩ := iterStepBody_yieldCont _ _ _ _ _ _ _ _ _ h
        exact ⟨hp, hv, fun o hoo => by simp [ho] at hoo, by simpa using hvis,
          by simp [ho]; simpa using hseen⟩
    | some o =>
      by_cases hs : o ∈ st.seenOffsets
      · constructor
        · intro p h
          simp [iterStep, hv, ho, hs] at h
        · intro p nxt st2 h
          simp [iterStep, hv, ho, hs] at h
      · have hred : iterStep site maxPages limit cur st =
            iterStepBody site maxPages limit cur (some o)
              { st with visited := cur :: st.visited, seenOffsets := o :: st.seenOffsets } := by
          simp [iterStep, hv, ho, hs]
        constructor
        · intro p h
          rw [hred] at h
          refine ⟨iterStepBody_yieldStop _ _ _ _ _ _ _ h, hv, fun o2 ho2 => ?_⟩
          cases ho2
          exact hs
        · intro p nxt st2 h
          rw [hred] at h
          obtain ⟨hp, hvis, hseen⟩ := iterStepBody_yieldCont _ _ _ _ _ _ _ _ _ h
          refine ⟨hp, hv, fun o2 ho2 => ?_, by simpa using hvis, ?_⟩
          · cases ho2
            exact hs
          · simpa using hseen

/-- Helper: every page accepted by the walker loop is at a locator and
offset fresh relative to the entry state, and distinct pages never share
a locator or a numeric offset. -/
theorem iterPagesGo_fresh (site : UrlModel → Bool → Except String RawListing)
    (maxPages limit : Option Nat) :
    ∀ fuel cur st,
      (∀ p ∈ (iterPagesGo site maxPages limit fuel cur st).1,
        p.currentUrl ∉ st.visited ∧
          ∀ o, extract_offset p.currentUrl = some o → o ∉ st.seenOffsets) ∧
      (iterPagesGo site maxPages limit fuel cur st).1.Pairwise
        (fun p q => p.currentUrl ≠ q.currentUrl ∧
          ∀ o o2, extract_offset p.currentUrl = some o →
            extract_offset q.currentUrl = some o2 → o ≠ o2) := by
  intro fuel
  induction fuel with
  | zero =>
    intro cur st
    simp [iterPagesGo]
  | succ fuel ih =>
    intro cur st
    cases hstep : iterStep site maxPages limit cur st with
    | stop err =>
      simp [iterPagesGo, hstep]
    | yieldStop p =>
      obtain ⟨hp, hv, hof⟩ := (iterStep_fresh site maxPages limit cur st).1 p hstep
      constructor
      · intro q hq
        simp only [iterPagesGo, hstep, List.mem_singleton] at hq
        subst hq
        exact ⟨hp ▸ hv, fun o hoo => hof o (hp ▸ hoo)⟩
      · simp [iterPagesGo, hstep]
    | yieldCont p nxt st2 =>
      obtain ⟨hp, hv, hof, hvis, hseen⟩ :=
        (iterStep_fresh site maxPages limit cur st).2 p nxt st2 hstep
      have hrec := ih nxt st2
      have hlist : (iterPagesGo site maxPages limit (fuel + 1) cur st).1 =
          p :: (iterPagesGo site maxPages limit fuel nxt st2).1 := by
        simp [iterPagesGo, hstep]
      constructor
      · intro q hq
        rw [hlist] at hq
        rcases List.mem_cons.mp hq with rfl | hq2
        · exact ⟨hp ▸ hv, fun o hoo => hof o (hp ▸ hoo)⟩
        · obtain ⟨hqv, hqo⟩ := hrec.1 q hq2
          rw [hvis] at hqv
          constructor
          · exact fun hmem => hqv (List.mem_cons_of_mem _ hmem)
          · intro o hoo
            have := hqo o hoo
            intro hmem
            apply this
            cases hcur : extract_offset cur with
            | none => rw [hseen]; simpa [hcur] using hmem
            | some oc =>
              rw [hseen]
              simp only [hcur]
              exact List.mem_cons_of_mem _ hmem
      · rw [hlist]
        refine List.pairwise_cons.mpr ⟨?_, hrec.2⟩
        intro q hq
        obtain ⟨hqv, hqo⟩ := hrec.1 q hq
        rw [hvis] at hqv
        constructor
        · intro heq
          exact hqv (heq ▸ hp ▸ List.mem_cons_self _ _)
        · intro o o2 hoo hqo2
          have hcuro : extract_offset cur = some o := hp ▸ hoo
          have := hqo o2 hqo2
          intro heq
          apply this
          rw [hseen]
          simp only [hcuro]
          exact heq ▸ List.mem_cons_self _ _

/-- C5: within a single `iter_pages` run, no two accepted (fetched and
yielded) pages share a locator, and no two share a numeric pagination
offset — locators in the visited set and offsets in the seen set stop
the walker before a repeat fetch. -/
theorem c5_no_repeat_acceptance (site : UrlModel → Bool → Except String RawListing)
    (startUrl : UrlModel) (maxPages limit : Option Nat) (fuel : Nat) :
    (iter_pages site startUrl maxPages limit fuel).1.Pairwise
      (fun p q => p.currentUrl ≠ q.currentUrl ∧
        ∀ o o2, extract_offset p.currentUrl = some o →
          extract_offset q.currentUrl = some o2 → o ≠ o2) := by
  unfold iter_pages
  split
  · simp
  · exact (iterPagesGo_fresh site maxPages limit fuel _ _).2

/-- C5 witness: the distinctness law on a concrete two-page walk. -/
theorem c5_witness :
    (iter_pages sampleSite sampleListUrl none none 3).1.Pairwise
      (fun p q => p.currentUrl ≠ q.currentUrl ∧
        ∀ o o2, extract_offset p.currentUrl = some o →
          extract_offset q.currentUrl = some o2 → o ≠ o2) :=
  c5_no_repeat_acceptance sampleSite sampleListUrl none none 3

end Lovtidend
